import Mathlib

/-!
# A shallow embedding of `my_vector.h`

The header defines `RawMemory<T>` (an owned block of raw storage) and
`Vector<T>` (a growable array built on one `RawMemory<T>`).

Modelling decisions, all visible in the definitions below.

* A buffer is the list of the slots of the allocation behind `buf_`; `[]` is
  `nullptr`.  A slot is `none` while it is raw storage and `some x` while it
  holds a constructed `T` of value `x`.  `RawMemory(n)` allocates `n + 1`
  slots, so the list of a buffer of requested capacity `n` has length `n + 1`.
* Relocation (`std::uninitialized_move_n`) transfers the content of a slot as
  it is, raw slots included, and leaves the source slot as it was: a
  moved-from object is still a constructed object.
* `sz_` and `cp_` are C++ `int`s; they are natural numbers here, and `int`
  arithmetic is exact (overflow of `sz_ * 2` is undefined behaviour and is not
  modelled).  `sz_ - 1` and `--sz_` are truncated subtraction: they are exact
  under the preconditions `sz_ > 0` of `PopBack` and `Erase`.
* The constructor `RawMemory(size_t)`, `Reserve(size_t)`, `Resize(size_t)` and
  `Vector(size_t)` take a `size_t` and store it in `int`s.  They are embedded
  twice.  `RawMemory.new`, `Vector.Reserve`, `Vector.Resize` and `Vector.sized`
  are the functions on a request that is an `int` value: an `int` converted to
  `size_t` and back is unchanged, and this is what every call inside the
  class passes (`PushBack`, `EmplaceBack`, `Insert`, `Erase`, the copy
  constructor).  `LP64.RawMemory.new`, `LP64.Reserve`, `LP64.Resize` and
  `LP64.sized` are the same functions on an argument of the caller, any
  `size_t`, with the conversions to a 32-bit `int` carried out; the two agree
  when `n + 1 < 2 ^ 31`.
* Memory outside an allocation is not part of the model: a write past the end
  of a buffer leaves no trace in the list of its slots.
* An iterator is the index of the slot it points to (`begin()` is `0`).
* What can throw is explicit: `operator new` (through `Env.allocOk`), the
  copy constructor and the copy assignment of `T` (through `Env.copyOk` and
  `Env.assignOk`).  Default construction and move construction of `T` do not
  throw in the model.  A call returns an `Outcome`: the container after the
  call together with the value returned or the failure thrown.
* The relocating member functions (`Reserve`, `Insert`, `Erase`) also have a
  trace: the list of the slots they read as a `T`, construct, destroy, and of
  the buffers they release, statement by statement and with the arguments of
  the source.  The traces say which slots a call touches; the functions above
  say what the container holds afterwards.
-/

namespace MyVector

/-! ## Failures and the environment -/

/-- What a call can throw. -/
inductive Failure where
  /-- Thrown by `operator new` inside `RawMemory::Allocate`. -/
  | bad_alloc
  /-- Thrown by a copy constructor or a copy assignment of `T`. -/
  | elem_throw
  deriving DecidableEq, Repr

/-- The collaborators of the container: the global allocator and the
operations of the element type `T`. -/
structure Env (T : Type) where
  /-- Whether `operator new` for `n` elements returns storage. -/
  allocOk : Nat → Bool
  /-- The value of `T()`. -/
  dflt : T
  /-- Whether `T(const T&)` from this value completes. -/
  copyOk : T → Bool
  /-- Whether `operator=(const T&)` from this value completes. -/
  assignOk : T → Bool

/-- An environment in which nothing throws. -/
def Env.total {T : Type} (d : T) : Env T :=
  { allocOk := fun _ => true, dflt := d, copyOk := fun _ => true, assignOk := fun _ => true }

/-- The environment of a call in which no allocation and no element operation fails. -/
def Env.NoFail {T : Type} (env : Env T) : Prop :=
  (∀ n, env.allocOk n = true) ∧ (∀ x, env.copyOk x = true) ∧ (∀ x, env.assignOk x = true)

/-! ## Slots and the `<memory>` algorithms -/

/-- The content of slot `i` of a buffer: `*(buf + i)`.  Outside the allocation
there is nothing to read. -/
def slot {T : Type} (b : List (Option T)) (i : Nat) : Option T :=
  b.getD i none

/-- `Vector::Construct(buf + i, elem)`: placement-new of a `T` of value `elem`. -/
def Construct {T : Type} (b : List (Option T)) (i : Nat) (elem : T) : List (Option T) :=
  b.set i (some elem)

/-- `Vector::Destroy(buf + i)` and `std::destroy_at(buf + i)`: the slot is raw again. -/
def destroy_at {T : Type} (b : List (Option T)) (i : Nat) : List (Option T) :=
  b.set i none

/-- `std::destroy_n(buf + first, n)`. -/
def destroy_n {T : Type} : List (Option T) → Nat → Nat → List (Option T)
  | b, _, 0 => b
  | b, first, n + 1 => destroy_n (destroy_at b first) (first + 1) n

/-- `std::uninitialized_value_construct_n(buf + first, n)`: each slot gets `T()`. -/
def uninitialized_value_construct_n {T : Type} (env : Env T) :
    List (Option T) → Nat → Nat → List (Option T)
  | b, _, 0 => b
  | b, first, n + 1 =>
      uninitialized_value_construct_n env (Construct b first env.dflt) (first + 1) n

/-- `std::uninitialized_move_n(src + first, n, dst + dfirst)`: slot by slot, in
increasing index order, the destination slot receives the content of the
source slot. -/
def uninitialized_move_n {T : Type} (src : List (Option T)) :
    Nat → Nat → List (Option T) → Nat → List (Option T)
  | _, 0, dst, _ => dst
  | first, n + 1, dst, dfirst =>
      uninitialized_move_n src (first + 1) n (dst.set dfirst (slot src first)) (dfirst + 1)

/-- Whether copy-constructing from the content of a slot completes. -/
def copyable {T : Type} (env : Env T) : Option T → Bool
  | none => true
  | some x => env.copyOk x

/-- `std::uninitialized_copy_n(src + first, n, dst + dfirst)`.  The result is
the destination buffer and whether the call completed.  When a copy throws,
the elements constructed so far are destroyed before the exception leaves. -/
def uninitialized_copy_n {T : Type} (env : Env T) (src : List (Option T)) :
    Nat → Nat → List (Option T) → Nat → List (Option T) × Bool
  | _, 0, dst, _ => (dst, true)
  | first, n + 1, dst, dfirst =>
      if copyable env (slot src first) then
        match uninitialized_copy_n env src (first + 1) n
            (dst.set dfirst (slot src first)) (dfirst + 1) with
        | (d, true) => (d, true)
        | (d, false) => (destroy_at d dfirst, false)
      else (dst, false)

/-- Whether copy-assigning from the content of a slot completes. -/
def assignable {T : Type} (env : Env T) : Option T → Bool
  | none => true
  | some x => env.assignOk x

/-- The loop `for (i = first; i < first + n; ++i) dst[i] = src[i];`.  The
result is the destination buffer and whether the loop completed; when an
assignment throws, the slots assigned before it keep their new values. -/
def assign_n {T : Type} (env : Env T) (src : List (Option T)) :
    Nat → Nat → List (Option T) → List (Option T) × Bool
  | _, 0, dst => (dst, true)
  | first, n + 1, dst =>
      if assignable env (slot src first) then
        assign_n env src (first + 1) n (dst.set first (slot src first))
      else (dst, false)

/-! ## `RawMemory<T>` -/

/-- The struct `RawMemory<T>`: the slots behind `buf_` and the requested capacity `cp_`. -/
structure RawMemory (T : Type) where
  buf_ : List (Option T) := []
  cp_ : Nat := 0

/-- `RawMemory::Allocate(int n)` for `n ≥ 0`: raw storage for `n` elements, or
nothing when `operator new` throws. -/
def RawMemory.Allocate {T : Type} (env : Env T) (n : Nat) : Option (List (Option T)) :=
  if env.allocOk n then some (List.replicate n none) else none

/-- The constructor `RawMemory(size_t n)`, `buf_ = Allocate(n + 1); cp_ = n;`,
on a request `n` that is an `int` value with `n + 1` in the range of `int`:
the conversions are the identity.  `LP64.RawMemory.new` is the constructor on
any `size_t`. -/
def RawMemory.new {T : Type} (env : Env T) (n : Nat) : Option (RawMemory T) :=
  match RawMemory.Allocate env (n + 1) with
  | none => none
  | some b => some { buf_ := b, cp_ := n }

/-- `RawMemory::Swap`: the first component is `*this` afterwards, the second `other`. -/
def RawMemory.Swap {T : Type} (a other : RawMemory T) : RawMemory T × RawMemory T :=
  ({ buf_ := other.buf_, cp_ := other.cp_ }, { buf_ := a.buf_, cp_ := a.cp_ })

/-! ## `Vector<T>` -/

/-- The class `Vector<T>`: `data_` and `sz_`.  The default values are those of
the default constructor `Vector() = default`. -/
structure Vector (T : Type) where
  data_ : RawMemory T := {}
  sz_ : Nat := 0

/-- The result of a member function: `*this` after the call, and the value
returned or the failure thrown. -/
structure Outcome (T α : Type) where
  self : Vector T
  ret : Except Failure α

/-- The result of a member function taking `const Vector& other`. -/
structure Outcome2 (T α : Type) where
  self : Vector T
  other : Vector T
  ret : Except Failure α

namespace Vector

variable {T : Type}

/-- `Size()`. -/
def Size (v : Vector T) : Nat := v.sz_

/-- `Capacity()`. -/
def Capacity (v : Vector T) : Nat := v.data_.cp_

/-- `operator[](i)`: the content of slot `i` of the buffer. -/
def index (v : Vector T) (i : Nat) : Option T := slot v.data_.buf_ i

/-- `begin()`. -/
def begin (_v : Vector T) : Nat := 0

/-- `end()`. -/
def end_ (v : Vector T) : Nat := v.sz_

/-- `Swap(other)`: the first component is `*this` afterwards, the second `other`. -/
def Swap (v other : Vector T) : Vector T × Vector T :=
  ({ data_ := (RawMemory.Swap v.data_ other.data_).1, sz_ := other.sz_ },
   { data_ := (RawMemory.Swap v.data_ other.data_).2, sz_ := v.sz_ })

/-- The constructor `Vector(size_t n)` on a request in the range of `int`;
`LP64.sized` is the constructor on any `size_t`. -/
def sized (env : Env T) (n : Nat) : Except Failure (Vector T) :=
  match RawMemory.new env n with
  | none => .error .bad_alloc
  | some data =>
      .ok { data_ := { data with buf_ := uninitialized_value_construct_n env data.buf_ 0 n },
            sz_ := n }

/-- The copy constructor `Vector(const Vector& other)`. -/
def copy (env : Env T) (other : Vector T) : Except Failure (Vector T) :=
  match RawMemory.new env other.sz_ with
  | none => .error .bad_alloc
  | some data =>
      match uninitialized_copy_n env other.data_.buf_ 0 other.sz_ data.buf_ 0 with
      | (b, true) => .ok { data_ := { data with buf_ := b }, sz_ := other.sz_ }
      | (_, false) => .error .elem_throw

/-- The move constructor `Vector(Vector&& other)`: the new object, then `other`. -/
def move (other : Vector T) : Vector T × Vector T :=
  Swap {} other

/-- Copy assignment `operator=(const Vector& other)`. -/
def assign (env : Env T) (v other : Vector T) : Outcome2 T Unit :=
  if other.sz_ > v.data_.cp_ then
    match copy env other with
    | .error f => { self := v, other := other, ret := .error f }
    | .ok data2 => { self := (Swap v data2).1, other := other, ret := .ok () }
  else
    match assign_n env other.data_.buf_ 0 (min v.sz_ other.sz_) v.data_.buf_ with
    | (b, false) =>
        { self := { v with data_ := { v.data_ with buf_ := b } }, other := other,
          ret := .error .elem_throw }
    | (b, true) =>
        if other.sz_ < v.sz_ then
          { self := { data_ := { v.data_ with
                                 buf_ := destroy_n b other.sz_ (v.sz_ - other.sz_) },
                      sz_ := other.sz_ },
            other := other, ret := .ok () }
        else if other.sz_ > v.sz_ then
          match uninitialized_copy_n env other.data_.buf_ v.sz_ (other.sz_ - v.sz_) b v.sz_ with
          | (b2, true) =>
              { self := { data_ := { v.data_ with buf_ := b2 }, sz_ := other.sz_ },
                other := other, ret := .ok () }
          | (b2, false) =>
              { self := { data_ := { v.data_ with buf_ := b2 }, sz_ := v.sz_ },
                other := other, ret := .error .elem_throw }
        else
          { self := { data_ := { v.data_ with buf_ := b }, sz_ := other.sz_ },
            other := other, ret := .ok () }

/-- Move assignment `operator=(Vector&& other)`: `*this`, then `other`. -/
def moveAssign (v other : Vector T) : Vector T × Vector T :=
  Swap v other

/-- `Reserve(n)` on a request that is an `int` value, as `PushBack` and
`EmplaceBack` call it; `LP64.Reserve` is the function on any `size_t`. -/
def Reserve (env : Env T) (v : Vector T) (n : Nat) : Outcome T Unit :=
  if n > v.data_.cp_ then
    match RawMemory.new env n with
    | none => { self := v, ret := .error .bad_alloc }
    | some data2 =>
        let data2 : RawMemory T :=
          { data2 with buf_ := uninitialized_move_n v.data_.buf_ 0 v.data_.cp_ data2.buf_ 0 }
        let data : RawMemory T := { v.data_ with buf_ := destroy_n v.data_.buf_ 0 v.sz_ }
        { self := { v with data_ := (RawMemory.Swap data data2).1 }, ret := .ok () }
  else { self := v, ret := .ok () }

/-- `Resize(n)` on a request in the range of `int`; `LP64.Resize` is the
function on any `size_t`. -/
def Resize (env : Env T) (v : Vector T) (n : Nat) : Outcome T Unit :=
  let r := Reserve env v n
  match r.ret with
  | .error f => { self := r.self, ret := .error f }
  | .ok _ =>
      let v1 := r.self
      if n < v1.sz_ then
        { self := { data_ := { v1.data_ with buf_ := destroy_n v1.data_.buf_ n (v1.sz_ - n) },
                    sz_ := n },
          ret := .ok () }
      else if n > v1.sz_ then
        { self := { data_ := { v1.data_ with
                               buf_ := uninitialized_value_construct_n env v1.data_.buf_
                                         v1.sz_ (n - v1.sz_) },
                    sz_ := n },
          ret := .ok () }
      else { self := { v1 with sz_ := n }, ret := .ok () }

/-- `PushBack(const T& elem)`. -/
def PushBack (env : Env T) (v : Vector T) (elem : T) : Outcome T Unit :=
  let r : Outcome T Unit :=
    if v.sz_ = v.data_.cp_ then Reserve env v (if v.sz_ = 0 then 1 else v.sz_ * 2)
    else { self := v, ret := .ok () }
  match r.ret with
  | .error f => { self := r.self, ret := .error f }
  | .ok _ =>
      let v1 := r.self
      if env.copyOk elem then
        { self := { data_ := { v1.data_ with buf_ := Construct v1.data_.buf_ v1.sz_ elem },
                    sz_ := v1.sz_ + 1 },
          ret := .ok () }
      else { self := v1, ret := .error .elem_throw }

/-- `PushBack(T&& elem)`. -/
def PushBackMove (env : Env T) (v : Vector T) (elem : T) : Outcome T Unit :=
  let r : Outcome T Unit :=
    if v.sz_ = v.data_.cp_ then Reserve env v (if v.sz_ = 0 then 1 else v.sz_ * 2)
    else { self := v, ret := .ok () }
  match r.ret with
  | .error f => { self := r.self, ret := .error f }
  | .ok _ =>
      let v1 := r.self
      { self := { data_ := { v1.data_ with buf_ := Construct v1.data_.buf_ v1.sz_ elem },
                  sz_ := v1.sz_ + 1 },
        ret := .ok () }

/-- `EmplaceBack(args...)`, with `elem` the value of `T(args...)`; the
reference returned is the index of the new element. -/
def EmplaceBack (env : Env T) (v : Vector T) (elem : T) : Outcome T Nat :=
  let r : Outcome T Unit :=
    if v.sz_ = v.data_.cp_ then Reserve env v (if v.sz_ = 0 then 1 else v.data_.cp_ * 2)
    else { self := v, ret := .ok () }
  match r.ret with
  | .error f => { self := r.self, ret := .error f }
  | .ok _ =>
      let v1 := r.self
      { self := { data_ := { v1.data_ with buf_ := Construct v1.data_.buf_ v1.sz_ elem },
                  sz_ := v1.sz_ + 1 },
        ret := .ok v1.sz_ }

/-- `PopBack()`. -/
def PopBack (v : Vector T) : Vector T :=
  { data_ := { v.data_ with buf_ := destroy_at v.data_.buf_ (v.sz_ - 1) }, sz_ := v.sz_ - 1 }

/-- `Insert(const_iterator pos, const T& elem)`. -/
def Insert (env : Env T) (v : Vector T) (pos : Nat) (elem : T) : Outcome T Nat :=
  let idx := pos - v.begin
  match RawMemory.new env
      (if v.sz_ = v.data_.cp_ then (if v.sz_ = 0 then 1 else 2 * v.sz_) else v.data_.cp_) with
  | none => { self := v, ret := .error .bad_alloc }
  | some tmp =>
      let b1 := uninitialized_move_n v.data_.buf_ 0 idx tmp.buf_ 0
      if env.copyOk elem then
        let b2 := Construct b1 idx elem
        let b3 := if v.sz_ > idx then
                    uninitialized_move_n v.data_.buf_ idx (v.sz_ - idx) b2 (idx + 1)
                  else b2
        let v1 : Vector T :=
          { data_ := (RawMemory.Swap v.data_ { tmp with buf_ := b3 }).1, sz_ := v.sz_ + 1 }
        { self := v1, ret := .ok (v1.begin + idx) }
      else { self := v, ret := .error .elem_throw }

/-- `Insert(const_iterator pos, T&& elem)`. -/
def InsertMove (env : Env T) (v : Vector T) (pos : Nat) (elem : T) : Outcome T Nat :=
  let idx := pos - v.begin
  match RawMemory.new env
      (if v.sz_ = v.data_.cp_ then (if v.sz_ = 0 then 1 else 2 * v.sz_) else v.data_.cp_) with
  | none => { self := v, ret := .error .bad_alloc }
  | some tmp =>
      let b1 := uninitialized_move_n v.data_.buf_ 0 idx tmp.buf_ 0
      let b2 := Construct b1 idx elem
      let b3 := if v.sz_ > idx then
                  uninitialized_move_n v.data_.buf_ idx (v.sz_ - idx) b2 (idx + 1)
                else b2
      let v1 : Vector T :=
        { data_ := (RawMemory.Swap v.data_ { tmp with buf_ := b3 }).1, sz_ := v.sz_ + 1 }
      { self := v1, ret := .ok (v1.begin + idx) }

/-- `Emplace(it, args...)`, with `elem` the value of `T(args...)`. -/
def Emplace (env : Env T) (v : Vector T) (it : Nat) (elem : T) : Outcome T Nat :=
  InsertMove env v it elem

/-- `Erase(const_iterator it)`. -/
def Erase (env : Env T) (v : Vector T) (it : Nat) : Outcome T Nat :=
  let idx := it - v.begin
  match RawMemory.new env v.data_.cp_ with
  | none => { self := v, ret := .error .bad_alloc }
  | some tmp =>
      let b1 := uninitialized_move_n v.data_.buf_ 0 idx tmp.buf_ 0
      let b2 := if v.sz_ > idx then
                  uninitialized_move_n v.data_.buf_ (idx + 1) (v.sz_ - idx) b1 idx
                else b1
      let v1 : Vector T :=
        { data_ := (RawMemory.Swap v.data_ { tmp with buf_ := b2 }).1, sz_ := v.sz_ - 1 }
      { self := v1, ret := .ok (v1.begin + idx) }

/-! ## Observations used by the statements -/

/-- The slots `[0, sz_)` of the buffer: what `operator[]` reads at the indices
below `Size()`. -/
def elems (v : Vector T) : List (Option T) :=
  (List.range v.sz_).map v.index

/-- The shape of the storage of a container: `sz_ ≤ cp_`, and the buffer is
either `nullptr` with `cp_ = 0` (default construction) or the `cp_ + 1` slots
that `RawMemory(cp_)` allocated. -/
def Shape (v : Vector T) : Prop :=
  v.sz_ ≤ v.data_.cp_ ∧
    (v.data_.buf_.length = v.data_.cp_ + 1 ∨ (v.data_.buf_.length = 0 ∧ v.data_.cp_ = 0))

/-- The container has live sequence `s` and capacity `c`: its storage has the
shape above, its capacity is `c`, and the slots `[0, sz_)` hold constructed
elements whose values are those of `s`, in order. -/
def Holds (v : Vector T) (s : List T) (c : Nat) : Prop :=
  v.Shape ∧ v.data_.cp_ = c ∧ v.sz_ = s.length ∧ v.elems = s.map some

/-- A run of appends: `PushBack` of each value of the list in turn, stopping
at the first call that throws. -/
def pushAll (env : Env T) : Vector T → List T → Outcome T Unit
  | v, [] => { self := v, ret := .ok () }
  | v, x :: xs =>
      match (PushBack env v x).ret with
      | .error f => { self := (PushBack env v x).self, ret := .error f }
      | .ok _ => pushAll env (PushBack env v x).self xs

/-- The number `c` is the smallest power of two that is at least `k`. -/
def IsLeastPow2 (c k : Nat) : Prop :=
  (∃ j, c = 2 ^ j) ∧ k ≤ c ∧ ∀ j, k ≤ 2 ^ j → c ≤ 2 ^ j

/-! ## Concrete containers of integers -/

/-- The environment of the examples: elements are integers and nothing throws. -/
def exEnv : Env Int := Env.total 0

/-- An environment whose allocator always fails. -/
def exNoMemory : Env Int :=
  { allocOk := fun _ => false, dflt := 0, copyOk := fun _ => true, assignOk := fun _ => true }

/-- An environment in which copying the value 20 throws. -/
def exNoCopy : Env Int :=
  { allocOk := fun _ => true, dflt := 0, copyOk := fun x => x != 20, assignOk := fun _ => true }

/-- The container after `Append(10); Append(20)`: size 2, capacity 2. -/
def ex2 : Vector Int :=
  { data_ := { buf_ := [some 10, some 20, none], cp_ := 2 }, sz_ := 2 }

/-- The container after `Append(10); Append(20); Insert(1, 15)`: size 3, capacity 4. -/
def ex3 : Vector Int :=
  { data_ := { buf_ := [some 10, some 15, some 20, none, none], cp_ := 4 }, sz_ := 3 }

/-- The end-to-end scenario `Append(10); Append(20); Insert(1, 15); Erase(0)` run
from a default-constructed container. -/
def scenario : Vector Int :=
  (Erase exEnv (Insert exEnv (PushBack exEnv (PushBack exEnv {} 10).self 20).self 1 15).self
    0).self

end Vector

/-! ## Storage accesses of the relocating member functions -/

/-- The two buffers a relocating member function works on. -/
inductive Buf where
  /-- The buffer `data_` owns when the call starts. -/
  | old
  /-- The buffer of the local `RawMemory` of the call (`data2`, `tmp`). -/
  | fresh
  deriving DecidableEq, Repr

/-- One step of a member function on storage. -/
inductive Access where
  /-- Slot `i` of the buffer is read as a `T`: it is the source of a move construction. -/
  | read (b : Buf) (i : Nat)
  /-- A `T` is constructed in slot `i` of the buffer. -/
  | write (b : Buf) (i : Nat)
  /-- The destructor of the `T` in slot `i` of the buffer is run. -/
  | destroy (b : Buf) (i : Nat)
  /-- The buffer is handed to `RawMemory::Deallocate`. -/
  | release (b : Buf)
  deriving DecidableEq, Repr

/-- The accesses of `std::uninitialized_move_n(src + first, n, dst + dfirst)`, in
order: each source slot is read and the matching destination slot written. -/
def move_accesses (src dst : Buf) : Nat → Nat → Nat → List Access
  | _, 0, _ => []
  | first, n + 1, dfirst =>
      .read src first :: .write dst dfirst :: move_accesses src dst (first + 1) n (dfirst + 1)

/-- The accesses of `std::destroy_n(buf + first, n)`. -/
def destroy_accesses (b : Buf) : Nat → Nat → List Access
  | _, 0 => []
  | first, n + 1 => .destroy b first :: destroy_accesses b (first + 1) n

/-- The indices of the slots of buffer `b` that a run of accesses reads as a `T`. -/
def readsOf (b : Buf) (tr : List Access) : List Nat :=
  tr.filterMap fun a =>
    match a with
    | .read b2 i => if b2 = b then some i else none
    | _ => none

/-- The indices of the slots of buffer `b` in which a run of accesses constructs a `T`. -/
def writesOf (b : Buf) (tr : List Access) : List Nat :=
  tr.filterMap fun a =>
    match a with
    | .write b2 i => if b2 = b then some i else none
    | _ => none

/-- The indices of the slots of buffer `b` that a run of accesses destroys,
up to the release of `b`. -/
def destroysBeforeRelease (b : Buf) : List Access → List Nat
  | [] => []
  | .destroy b2 i :: tr =>
      if b2 = b then i :: destroysBeforeRelease b tr else destroysBeforeRelease b tr
  | .release b2 :: tr => if b2 = b then [] else destroysBeforeRelease b tr
  | _ :: tr => destroysBeforeRelease b tr

namespace Vector

variable {T : Type}

/-- The accesses of `Reserve(n)`, statement by statement: nothing when
`n ≤ cp_` or when the allocation throws; otherwise the relocation of `cp_`
slots, `std::destroy_n(data_.buf_, sz_)`, and after the swap the release of
the old buffer by the destructor of `data2`. -/
def Reserve_trace (env : Env T) (v : Vector T) (n : Nat) : List Access :=
  if n > v.data_.cp_ then
    match RawMemory.new env n with
    | none => []
    | some _ =>
        move_accesses .old .fresh 0 v.data_.cp_ 0 ++ destroy_accesses .old 0 v.sz_ ++
          [.release .old]
  else []

/-- The accesses of `Insert(pos, T&& elem)`, statement by statement; after the
swap the destructor of `tmp` releases the old buffer. -/
def InsertMove_trace (env : Env T) (v : Vector T) (pos : Nat) : List Access :=
  let idx := pos - v.begin
  match RawMemory.new env
      (if v.sz_ = v.data_.cp_ then (if v.sz_ = 0 then 1 else 2 * v.sz_) else v.data_.cp_) with
  | none => []
  | some _ =>
      move_accesses .old .fresh 0 idx 0 ++ [.write .fresh idx] ++
        (if v.sz_ > idx then move_accesses .old .fresh idx (v.sz_ - idx) (idx + 1) else []) ++
        [.release .old]

/-- The accesses of `Insert(pos, const T& elem)`, statement by statement; when
the copy of `elem` throws, the destructor of `tmp` releases the new buffer. -/
def Insert_trace (env : Env T) (v : Vector T) (pos : Nat) (elem : T) : List Access :=
  let idx := pos - v.begin
  match RawMemory.new env
      (if v.sz_ = v.data_.cp_ then (if v.sz_ = 0 then 1 else 2 * v.sz_) else v.data_.cp_) with
  | none => []
  | some _ =>
      if env.copyOk elem then
        move_accesses .old .fresh 0 idx 0 ++ [.write .fresh idx] ++
          (if v.sz_ > idx then move_accesses .old .fresh idx (v.sz_ - idx) (idx + 1) else []) ++
          [.release .old]
      else move_accesses .old .fresh 0 idx 0 ++ [.release .fresh]

/-- The accesses of `Erase(it)`, statement by statement; after the swap the
destructor of `tmp` releases the old buffer. -/
def Erase_trace (env : Env T) (v : Vector T) (it : Nat) : List Access :=
  let idx := it - v.begin
  match RawMemory.new env v.data_.cp_ with
  | none => []
  | some _ =>
      move_accesses .old .fresh 0 idx 0 ++
        (if v.sz_ > idx then move_accesses .old .fresh (idx + 1) (v.sz_ - idx) idx else []) ++
        [.release .old]

/-- The central invariant of the data model: the storage has the shape of
`Shape`, the slots `[0, sz_)` hold constructed elements and the slots from
`sz_` on are raw. -/
def Central (v : Vector T) : Prop :=
  v.Shape ∧ ∀ i, (i < v.sz_ → (v.index i).isSome = true) ∧ (v.sz_ ≤ i → v.index i = none)

/-- A full container of ten integers: size 10, capacity 10. -/
def ex10 : Vector Int :=
  { data_ := { buf_ := [some 1, some 2, some 3, some 4, some 5, some 6, some 7, some 8,
                        some 9, some 10, none],
               cp_ := 10 },
    sz_ := 10 }

end Vector

/-! ## Sizes supplied by the caller: the conversions from `size_t` to `int` -/

namespace LP64

/-- The conversion of a `size_t` to `int` where `int` has 32 bits: the value
modulo `2 ^ 32`, read in two's complement. -/
def toInt (n : Nat) : Int :=
  if n % 2 ^ 32 < 2 ^ 31 then Int.ofNat (n % 2 ^ 32) else Int.ofNat (n % 2 ^ 32) - 2 ^ 32

/-- What the constructor `RawMemory(size_t n)` ends with. -/
inductive Acquired (T : Type) where
  /-- The constructor returned, with this buffer and capacity. -/
  | memory (m : RawMemory T)
  /-- `operator new` threw. -/
  | bad_alloc
  /-- The constructor returned with `cp_ = -1`, which `cp_ : Nat` cannot hold. -/
  | negative_cp

/-- The constructor `RawMemory(size_t n)` on any `size_t`:
`buf_ = Allocate(n + 1); cp_ = n;`.  `Allocate` takes an `int`, so it receives
`toInt (n + 1)`; a negative count converts to a request of more than `2 ^ 63`
bytes (`n * sizeof(T)` is computed in `size_t`), which `operator new` does not
grant.  `cp_` is an `int`, so it receives `toInt n`. -/
def RawMemory.new {T : Type} (env : Env T) (n : Nat) : Acquired T :=
  if toInt (n + 1) < 0 then .bad_alloc
  else
    match RawMemory.Allocate env (toInt (n + 1)).toNat with
    | none => .bad_alloc
    | some b =>
        if toInt n < 0 then .negative_cp
        else .memory { buf_ := b, cp_ := (toInt n).toNat }

/-- `Reserve(size_t n)` on any `size_t`.  The comparison `n > data_.cp_` is
made in `size_t`; the new buffer is the one `RawMemory(n)` acquires.  The
result is `none` when the call ends with `cp_ = -1`. -/
def Reserve {T : Type} (env : Env T) (v : Vector T) (n : Nat) : Option (Outcome T Unit) :=
  if n > v.data_.cp_ then
    match RawMemory.new env n with
    | .bad_alloc => some { self := v, ret := .error .bad_alloc }
    | .negative_cp => none
    | .memory data2 =>
        let data2 : RawMemory T :=
          { data2 with buf_ := uninitialized_move_n v.data_.buf_ 0 v.data_.cp_ data2.buf_ 0 }
        let data : RawMemory T := { v.data_ with buf_ := destroy_n v.data_.buf_ 0 v.sz_ }
        some { self := { v with data_ := (RawMemory.Swap data data2).1 }, ret := .ok () }
  else some { self := v, ret := .ok () }

/-- `Resize(size_t n)` on any `size_t`.  The comparisons and the counts
`sz_ - n`, `n - sz_` are computed in `size_t`; the final `sz_ = n` stores
`toInt n`.  The result is `none` when the call ends with a negative `cp_` or
`sz_`. -/
def Resize {T : Type} (env : Env T) (v : Vector T) (n : Nat) : Option (Outcome T Unit) :=
  match Reserve env v n with
  | none => none
  | some r =>
      match r.ret with
      | .error f => some { self := r.self, ret := .error f }
      | .ok _ =>
          let v1 := r.self
          if toInt n < 0 then none
          else if n < v1.sz_ then
            some { self := { data_ := { v1.data_ with
                                        buf_ := destroy_n v1.data_.buf_ n (v1.sz_ - n) },
                             sz_ := (toInt n).toNat },
                   ret := .ok () }
          else if n > v1.sz_ then
            some { self := { data_ := { v1.data_ with
                                        buf_ := uninitialized_value_construct_n env
                                                  v1.data_.buf_ v1.sz_ (n - v1.sz_) },
                             sz_ := (toInt n).toNat },
                   ret := .ok () }
          else some { self := { v1 with sz_ := (toInt n).toNat }, ret := .ok () }

/-- The constructor `Vector(size_t n)` on any `size_t`: `data_(n)`, then
`std::uninitialized_value_construct_n(data_.buf_, n)` with the count `n` in
`size_t`, then `sz_ = n`, which stores `toInt n`.  The result is `none` when
the constructor ends with `cp_ = -1`. -/
def sized {T : Type} (env : Env T) (n : Nat) : Option (Except Failure (Vector T)) :=
  match RawMemory.new env n with
  | .bad_alloc => some (.error .bad_alloc)
  | .negative_cp => none
  | .memory data =>
      some (.ok { data_ := { data with
                             buf_ := uninitialized_value_construct_n env data.buf_ 0 n },
                  sz_ := (toInt n).toNat })

end LP64

/-! ## Lemmas on slots and on the `<memory>` algorithms -/

section Lemmas

variable {T : Type}

theorem slot_eq (b : List (Option T)) (i : Nat) : slot b i = (b[i]?).getD none := by
  simp [slot, List.getD_eq_getElem?_getD]

theorem slot_of_length_le (b : List (Option T)) (i : Nat) (h : b.length ≤ i) : slot b i = none := by
  simp [slot_eq, List.getElem?_eq_none h]

theorem slot_set (b : List (Option T)) (j i : Nat) (x : Option T) :
    slot (b.set j x) i = if i = j ∧ j < b.length then x else slot b i := by
  simp only [slot_eq, List.getElem?_set]
  by_cases hij : j = i
  · subst hij
    by_cases hl : j < b.length
    · simp [hl]
    · simp [hl, List.getElem?_eq_none (Nat.le_of_not_lt hl)]
  · have : ¬ i = j := fun h => hij h.symm
    simp [hij, this]

theorem slot_replicate_none (n i : Nat) : slot (List.replicate n (none : Option T)) i = none := by
  simp only [slot_eq, List.getElem?_replicate]
  split <;> rfl

theorem length_destroy_n (b : List (Option T)) (first n : Nat) :
    (destroy_n b first n).length = b.length := by
  induction n generalizing b first with
  | zero => rfl
  | succ n ih => simp [destroy_n, destroy_at, ih]

theorem slot_destroy_n (b : List (Option T)) (first n i : Nat) :
    slot (destroy_n b first n) i = if first ≤ i ∧ i < first + n then none else slot b i := by
  induction n generalizing b first with
  | zero => rw [if_neg (by omega)]; rfl
  | succ n ih =>
    simp only [destroy_n, destroy_at, ih, slot_set]
    by_cases h1 : first + 1 ≤ i ∧ i < first + 1 + n
    · have : first ≤ i ∧ i < first + (n + 1) := by omega
      simp [h1, this]
    · by_cases h2 : i = first
      · subst h2
        by_cases h3 : i < b.length
        · simp [h3]
        · simp [h3, slot_of_length_le b i (Nat.le_of_not_lt h3)]
      · have : ¬ (first ≤ i ∧ i < first + (n + 1)) := by omega
        simp [h1, h2, this]

theorem length_uninitialized_value_construct_n (env : Env T) (b : List (Option T)) (first n : Nat) :
    (uninitialized_value_construct_n env b first n).length = b.length := by
  induction n generalizing b first with
  | zero => rfl
  | succ n ih => simp [uninitialized_value_construct_n, Construct, ih]

theorem slot_uninitialized_value_construct_n (env : Env T) (b : List (Option T))
    (first n i : Nat) :
    slot (uninitialized_value_construct_n env b first n) i =
      if first ≤ i ∧ i < first + n ∧ i < b.length then some env.dflt else slot b i := by
  induction n generalizing b first with
  | zero => rw [if_neg (by omega)]; rfl
  | succ n ih =>
    simp only [uninitialized_value_construct_n, Construct, ih, slot_set, List.length_set]
    by_cases h1 : first + 1 ≤ i ∧ i < first + 1 + n ∧ i < b.length
    · have : first ≤ i ∧ i < first + (n + 1) ∧ i < b.length := by omega
      simp [h1, this]
    · by_cases h2 : i = first ∧ first < b.length
      · have : first ≤ i ∧ i < first + (n + 1) ∧ i < b.length := by omega
        simp [h1, h2, this]
      · have : ¬ (first ≤ i ∧ i < first + (n + 1) ∧ i < b.length) := by omega
        simp [h1, h2, this]

theorem length_uninitialized_move_n (src : List (Option T)) (first n : Nat)
    (dst : List (Option T)) (dfirst : Nat) :
    (uninitialized_move_n src first n dst dfirst).length = dst.length := by
  induction n generalizing first dst dfirst with
  | zero => rfl
  | succ n ih => simp [uninitialized_move_n, ih]

theorem slot_uninitialized_move_n (src : List (Option T)) (first n : Nat)
    (dst : List (Option T)) (dfirst i : Nat) :
    slot (uninitialized_move_n src first n dst dfirst) i =
      if dfirst ≤ i ∧ i < dfirst + n ∧ i < dst.length then slot src (first + (i - dfirst))
      else slot dst i := by
  induction n generalizing first dst dfirst with
  | zero => rw [if_neg (by omega)]; rfl
  | succ n ih =>
    simp only [uninitialized_move_n, ih, slot_set, List.length_set]
    by_cases h1 : dfirst + 1 ≤ i ∧ i < dfirst + 1 + n ∧ i < dst.length
    · have h3 : dfirst ≤ i ∧ i < dfirst + (n + 1) ∧ i < dst.length := by omega
      have h4 : first + 1 + (i - (dfirst + 1)) = first + (i - dfirst) := by omega
      simp [h1, h3, h4]
    · by_cases h2 : i = dfirst ∧ dfirst < dst.length
      · have h3 : dfirst ≤ i ∧ i < dfirst + (n + 1) ∧ i < dst.length := by omega
        have h4 : first + (i - dfirst) = first := by omega
        simp [h1, h2, h3, h4]
      · have : ¬ (dfirst ≤ i ∧ i < dfirst + (n + 1) ∧ i < dst.length) := by omega
        simp [h1, h2, this]

theorem RawMemory.new_of_allocOk (env : Env T) (n : Nat) (h : env.allocOk (n + 1) = true) :
    RawMemory.new env n = some { buf_ := List.replicate (n + 1) none, cp_ := n } := by
  simp [RawMemory.new, RawMemory.Allocate, h]

namespace Vector

variable {T : Type}

theorem elems_eq_of_slots (v : Vector T) (s : List T) (hsz : v.sz_ = s.length)
    (h : ∀ i, i < s.length → slot v.data_.buf_ i = s[i]?) : v.elems = s.map some := by
  apply List.ext_getElem?
  intro i
  by_cases hi : i < s.length
  · have hi2 : i < v.sz_ := by omega
    simp [elems, index, List.getElem?_range hi2, h i hi, hi]
  · have hi2 : ¬ i < v.sz_ := by omega
    simp [elems, List.getElem?_eq_none (Nat.le_of_not_lt hi),
      List.getElem?_eq_none (l := List.range v.sz_) (by simpa using Nat.le_of_not_lt hi2)]

theorem slots_of_elems_eq (v : Vector T) (s : List T) (hsz : v.sz_ = s.length)
    (h : v.elems = s.map some) (i : Nat) (hi : i < s.length) :
    slot v.data_.buf_ i = s[i]? := by
  have h1 : v.elems[i]? = (s.map some)[i]? := by rw [h]
  have hi2 : i < v.sz_ := by omega
  simpa [elems, index, List.getElem?_range hi2, hi] using h1

theorem Holds.slot {v : Vector T} {s : List T} {c : Nat} (h : v.Holds s c) (i : Nat)
    (hi : i < s.length) : MyVector.slot v.data_.buf_ i = s[i]? :=
  slots_of_elems_eq v s h.2.2.1 h.2.2.2 i hi

theorem Insert_eq_InsertMove (env : Env T) (v : Vector T) (p : Nat) (x : T)
    (h : env.copyOk x = true) : Insert env v p x = InsertMove env v p x := by
  unfold Insert InsertMove
  cases RawMemory.new env
      (if v.sz_ = v.data_.cp_ then (if v.sz_ = 0 then 1 else 2 * v.sz_) else v.data_.cp_) with
  | none => rfl
  | some tmp => simp [h]

theorem getElem?_insert (s : List T) (p : Nat) (x : T) (i : Nat) (hp : p ≤ s.length) :
    (s.take p ++ x :: s.drop p)[i]? =
      if i < p then s[i]? else if i = p then some x else s[i - 1]? := by
  have hl : (s.take p).length = p := by simp [hp]
  by_cases h1 : i < p
  · rw [if_pos h1, List.getElem?_append_left (by omega), List.getElem?_take_of_lt h1]
  · rw [if_neg h1, List.getElem?_append_right (by omega), hl, List.getElem?_cons]
    by_cases h2 : i = p
    · simp [h2]
    · rw [if_neg (by omega), if_neg h2, List.getElem?_drop]
      congr 1; omega

theorem InsertMove_holds (env : Env T) (v : Vector T) (s : List T) (c p : Nat) (x : T)
    (hv : v.Holds s c) (hp : p ≤ s.length) (hA : ∀ n, env.allocOk n = true) :
    (InsertMove env v p x).ret = .ok p ∧
      (InsertMove env v p x).self.Holds (s.take p ++ x :: s.drop p)
        (if s.length = c then (if s.length = 0 then 1 else 2 * s.length) else c) := by
  obtain ⟨⟨hle, hshape⟩, hc, hsz, hel⟩ := hv
  have hslot := slots_of_elems_eq v s hsz hel
  unfold InsertMove
  simp only [RawMemory.new_of_allocOk env _ (hA _), begin, Nat.sub_zero, RawMemory.Swap,
    Nat.zero_add]
  refine ⟨trivial, ⟨?_, ?_⟩, ?_, ?_, ?_⟩
  · simp only [hsz, hc]
    split_ifs <;> omega
  · left
    simp only [Construct]
    split_ifs <;> simp [length_uninitialized_move_n]
  · simp only [hsz, hc]
  · simp [hsz]
    omega
  · apply elems_eq_of_slots
    · simp [hsz]; omega
    · intro i hi
      simp only [List.length_append, List.length_take, List.length_cons, List.length_drop] at hi
      have hi2 : i < s.length + 1 := by omega
      rw [getElem?_insert s p x i hp]
      by_cases hgt : v.sz_ > p
      · simp only [hgt, if_true, slot_uninitialized_move_n, Construct, slot_set,
          slot_replicate_none, length_uninitialized_move_n, List.length_set,
          List.length_replicate]
        rcases Nat.lt_trichotomy i p with h | h | h
        · rw [if_neg (by omega), if_neg (by omega), if_pos (by split_ifs <;> omega), if_pos h,
            hslot _ (by omega)]
          congr 1; omega
        · rw [if_neg (by omega), if_pos (by split_ifs <;> omega), if_neg (by omega), if_pos h]
        · rw [if_pos (by split_ifs <;> omega), if_neg (by omega), if_neg (by omega),
            hslot _ (by omega)]
          congr 1; omega
      · have hpe : p = s.length := by omega
        simp only [hgt, if_false, slot_uninitialized_move_n, Construct, slot_set,
          slot_replicate_none, length_uninitialized_move_n, List.length_set,
          List.length_replicate]
        rcases Nat.lt_or_ge i p with h | h
        · rw [if_neg (by omega), if_pos (by split_ifs <;> omega), if_pos h, hslot _ (by omega)]
          congr 1; omega
        · rw [if_pos (by split_ifs <;> omega), if_neg (by omega), if_pos (by omega)]

theorem getElem?_erase (s : List T) (p i : Nat) (hp : p ≤ s.length) :
    (s.take p ++ s.drop (p + 1))[i]? = if i < p then s[i]? else s[i + 1]? := by
  have hl : (s.take p).length = p := by simp [hp]
  by_cases h1 : i < p
  · rw [if_pos h1, List.getElem?_append_left (by omega), List.getElem?_take_of_lt h1]
  · rw [if_neg h1, List.getElem?_append_right (by omega), hl, List.getElem?_drop]
    congr 1; omega

theorem Erase_holds (env : Env T) (v : Vector T) (s : List T) (c p : Nat)
    (hv : v.Holds s c) (hp : p < s.length) (hA : ∀ n, env.allocOk n = true) :
    (Erase env v p).ret = .ok p ∧
      (Erase env v p).self.Holds (s.take p ++ s.drop (p + 1)) c := by
  obtain ⟨⟨hle, hshape⟩, hc, hsz, hel⟩ := hv
  have hslot := slots_of_elems_eq v s hsz hel
  have hgt : v.sz_ > p := by omega
  unfold Erase
  simp only [RawMemory.new_of_allocOk env _ (hA _), begin, Nat.sub_zero, RawMemory.Swap,
    Nat.zero_add, hgt, if_true]
  refine ⟨trivial, ⟨?_, ?_⟩, ?_, ?_, ?_⟩
  · show v.sz_ - 1 ≤ v.data_.cp_
    omega
  · left
    simp [length_uninitialized_move_n]
  · exact hc
  · simp [hsz]
    omega
  · apply elems_eq_of_slots
    · simp [hsz]; omega
    · intro i hi
      simp only [List.length_append, List.length_take, List.length_drop] at hi
      rw [getElem?_erase s p i (by omega)]
      simp only [slot_uninitialized_move_n, slot_replicate_none, length_uninitialized_move_n,
        List.length_replicate]
      by_cases h : i < p
      · rw [if_neg (by omega), if_pos (by omega), if_pos h, hslot _ (by omega)]
        congr 1; omega
      · rw [if_pos (by omega), if_neg h, hslot _ (by omega)]
        congr 1; omega

theorem Reserve_of_le (env : Env T) (v : Vector T) (n : Nat) (h : n ≤ v.data_.cp_) :
    Reserve env v n = { self := v, ret := .ok () } := by
  unfold Reserve
  rw [if_neg (by omega)]

theorem Reserve_holds (env : Env T) (v : Vector T) (s : List T) (c n : Nat)
    (hv : v.Holds s c) (hA : ∀ n, env.allocOk n = true) :
    (Reserve env v n).ret = .ok () ∧ (Reserve env v n).self.Holds s (max c n) := by
  by_cases hn : n ≤ v.data_.cp_
  · rw [Reserve_of_le env v n hn]
    have : max c n = c := by have := hv.2.1; omega
    rw [this]
    exact ⟨rfl, hv⟩
  · obtain ⟨⟨hle, hshape⟩, hc, hsz, hel⟩ := hv
    have hslot := slots_of_elems_eq v s hsz hel
    unfold Reserve
    simp only [if_pos (Nat.lt_of_not_le hn), RawMemory.new_of_allocOk env _ (hA _),
      RawMemory.Swap]
    refine ⟨trivial, ⟨?_, ?_⟩, ?_, ?_, ?_⟩
    · show v.sz_ ≤ n
      omega
    · left
      simp [length_uninitialized_move_n]
    · show n = max c n
      omega
    · exact hsz
    · apply elems_eq_of_slots
      · exact hsz
      · intro i hi
        simp only [slot_uninitialized_move_n, slot_replicate_none, List.length_replicate]
        rw [if_pos (by omega), ← hslot _ hi]
        congr 1; omega

theorem construct_back_holds (v : Vector T) (s : List T) (c : Nat) (x : T)
    (hv : v.Holds s c) (hlt : s.length < c) :
    Holds { data_ := { v.data_ with buf_ := Construct v.data_.buf_ v.sz_ x }, sz_ := v.sz_ + 1 }
      (s ++ [x]) c := by
  obtain ⟨⟨hle, hshape⟩, hc, hsz, hel⟩ := hv
  have hslot := slots_of_elems_eq v s hsz hel
  have hlen : v.data_.buf_.length = v.data_.cp_ + 1 := by omega
  refine ⟨⟨?_, ?_⟩, hc, ?_, ?_⟩
  · show v.sz_ + 1 ≤ v.data_.cp_
    omega
  · left
    simp [Construct, hlen]
  · simp [hsz]
  · apply elems_eq_of_slots
    · simp [hsz]
    · intro i hi
      simp only [List.length_append, List.length_singleton] at hi
      simp only [Construct, slot_set]
      by_cases h : i = v.sz_
      · rw [if_pos ⟨h, by omega⟩, List.getElem?_append_right (by omega)]
        simp [h, hsz]
      · rw [if_neg (by omega), List.getElem?_append_left (by omega), hslot _ (by omega)]

theorem PushBackMove_holds (env : Env T) (v : Vector T) (s : List T) (c : Nat) (x : T)
    (hv : v.Holds s c) (hA : ∀ n, env.allocOk n = true) :
    (PushBackMove env v x).ret = .ok () ∧
      (PushBackMove env v x).self.Holds (s ++ [x]) (if s.length = c then max 1 (2 * c) else c) := by
  have hc := hv.2.1
  have hsz := hv.2.2.1
  have hle := hv.1.1
  unfold PushBackMove
  by_cases hfull : v.sz_ = v.data_.cp_
  · have hr := Reserve_holds env v s c (if v.sz_ = 0 then 1 else v.sz_ * 2) hv hA
    simp only [if_pos hfull, hr.1]
    refine ⟨trivial, ?_⟩
    have hcap : max c (if v.sz_ = 0 then 1 else v.sz_ * 2) = max 1 (2 * c) := by
      split_ifs <;> omega
    rw [if_pos (show s.length = c by omega), ← hcap]
    exact construct_back_holds _ s _ x hr.2 (by split_ifs <;> omega)
  · simp only [if_neg hfull]
    refine ⟨trivial, ?_⟩
    rw [if_neg (show ¬ s.length = c by omega)]
    exact construct_back_holds v s c x hv (by omega)

theorem PushBack_eq_PushBackMove (env : Env T) (v : Vector T) (x : T)
    (h : env.copyOk x = true) : PushBack env v x = PushBackMove env v x := by
  unfold PushBack PushBackMove
  simp only [h, if_true]

theorem PopBack_holds (v : Vector T) (s : List T) (c : Nat) (x : T)
    (hv : v.Holds (s ++ [x]) c) : (PopBack v).Holds s c := by
  obtain ⟨⟨hle, hshape⟩, hc, hsz, hel⟩ := hv
  have hslot := slots_of_elems_eq v _ hsz hel
  simp only [List.length_append, List.length_singleton] at hsz
  refine ⟨⟨?_, ?_⟩, hc, ?_, ?_⟩
  · show v.sz_ - 1 ≤ v.data_.cp_
    omega
  · simpa [PopBack, destroy_at] using hshape
  · show v.sz_ - 1 = s.length
    omega
  · apply elems_eq_of_slots
    · show v.sz_ - 1 = s.length
      omega
    · intro i hi
      simp only [PopBack, destroy_at, slot_set]
      rw [if_neg (by omega), hslot i (by simp; omega), List.getElem?_append_left hi]

theorem Resize_holds (env : Env T) (v : Vector T) (s : List T) (c n : Nat)
    (hv : v.Holds s c) (hA : ∀ n, env.allocOk n = true) :
    (Resize env v n).ret = .ok () ∧
      (Resize env v n).self.Holds
        (s.take (min n s.length) ++ List.replicate (n - s.length) env.dflt) (max c n) := by
  obtain ⟨hret, ⟨hle, hshape⟩, hc, hsz, hel⟩ := Reserve_holds env v s c n hv hA
  have hslot := slots_of_elems_eq _ s hsz hel
  unfold Resize
  simp only [hret]
  have hlen : n ≤ (Reserve env v n).self.data_.cp_ := by omega
  have hlen2 : (Reserve env v n).self.data_.cp_ < (Reserve env v n).self.data_.buf_.length ∨
      n = 0 := by omega
  by_cases h1 : n < (Reserve env v n).self.sz_
  · simp only [if_pos h1]
    refine ⟨trivial, ⟨hlen, ?_⟩, hc, ?_, ?_⟩
    · simpa [length_destroy_n] using hshape
    · simp; omega
    · apply elems_eq_of_slots
      · simp; omega
      · intro i hi
        simp only [List.length_append, List.length_take, List.length_replicate] at hi
        simp only [slot_destroy_n]
        rw [if_neg (by omega), hslot i (by omega), List.getElem?_append_left (by simp; omega),
          List.getElem?_take_of_lt (by omega)]
  · by_cases h2 : n > (Reserve env v n).self.sz_
    · simp only [if_neg h1, if_pos h2]
      refine ⟨trivial, ⟨hlen, ?_⟩, hc, ?_, ?_⟩
      · simpa [length_uninitialized_value_construct_n] using hshape
      · simp; omega
      · apply elems_eq_of_slots
        · simp; omega
        · intro i hi
          simp only [List.length_append, List.length_take, List.length_replicate] at hi
          simp only [slot_uninitialized_value_construct_n]
          have hmin : min n s.length = s.length := by omega
          by_cases h3 : i < s.length
          · rw [if_neg (by omega), hslot i h3, List.getElem?_append_left (by simp; omega),
              List.getElem?_take_of_lt (by omega)]
          · rw [if_pos (by omega), List.getElem?_append_right (by simp; omega),
              List.getElem?_replicate, if_pos (by simp; omega)]
    · simp only [if_neg h1, if_neg h2]
      have hn : n = s.length := by omega
      refine ⟨trivial, ⟨hlen, hshape⟩, hc, ?_, ?_⟩
      · simp; omega
      · apply elems_eq_of_slots
        · simp; omega
        · intro i hi
          simp only [List.length_append, List.length_take, List.length_replicate] at hi
          rw [hslot i (by omega), List.getElem?_append_left (by simp; omega),
            List.getElem?_take_of_lt (by omega)]

theorem Resize_size (env : Env T) (v : Vector T) (c : Nat) (s : List T)
    (hv : v.Holds s c) : (Resize env v s.length).self = v := by
  obtain ⟨⟨hle, hshape⟩, hc, hsz, hel⟩ := hv
  rw [← hsz]
  unfold Resize
  rw [Reserve_of_le env v v.sz_ hle]
  simp only [if_neg (Nat.lt_irrefl v.sz_), gt_iff_lt]

theorem uninitialized_copy_n_of_copyOk (env : Env T) (h : ∀ x, env.copyOk x = true)
    (src : List (Option T)) (first n : Nat) (dst : List (Option T)) (dfirst : Nat) :
    uninitialized_copy_n env src first n dst dfirst =
      (uninitialized_move_n src first n dst dfirst, true) := by
  induction n generalizing first dst dfirst with
  | zero => rfl
  | succ n ih =>
    have hc : copyable env (slot src first) = true := by
      cases hs : slot src first <;> simp [copyable, h]
    simp only [uninitialized_copy_n, uninitialized_move_n, hc, if_true, ih]

theorem uninitialized_copy_n_fails (env : Env T) (src : List (Option T)) (first n : Nat)
    (dst : List (Option T)) (dfirst k : Nat) (hk : k < n)
    (hbad : copyable env (slot src (first + k)) = false) :
    (uninitialized_copy_n env src first n dst dfirst).2 = false := by
  induction n generalizing first dst dfirst k with
  | zero => omega
  | succ n ih =>
    simp only [uninitialized_copy_n]
    by_cases hc : copyable env (slot src first) = true
    · rw [if_pos hc]
      cases k with
      | zero => simp [hc] at hbad
      | succ k =>
        have := ih (first + 1) (dst.set dfirst (slot src first)) (dfirst + 1) k (by omega)
          (by rw [← hbad]; congr 2; omega)
        revert this
        cases uninitialized_copy_n env src (first + 1) n (dst.set dfirst (slot src first))
          (dfirst + 1) with
        | mk d b => intro hb; simp only at hb; subst hb; rfl
    · rw [if_neg hc]

theorem assign_n_of_assignOk (env : Env T) (h : ∀ x, env.assignOk x = true)
    (src : List (Option T)) (first n : Nat) (dst : List (Option T)) :
    assign_n env src first n dst = (uninitialized_move_n src first n dst first, true) := by
  induction n generalizing first dst with
  | zero => rfl
  | succ n ih =>
    have hc : assignable env (slot src first) = true := by
      cases hs : slot src first <;> simp [assignable, h]
    simp only [assign_n, uninitialized_move_n, hc, if_true, ih]

theorem copy_holds (env : Env T) (o : Vector T) (so : List T) (co : Nat)
    (ho : o.Holds so co) (hA : ∀ n, env.allocOk n = true) (hC : ∀ x, env.copyOk x = true) :
    ∃ w, copy env o = .ok w ∧ w.Holds so so.length := by
  obtain ⟨⟨hle, hshape⟩, hc, hsz, hel⟩ := ho
  have hslot := slots_of_elems_eq o so hsz hel
  unfold copy
  simp only [RawMemory.new_of_allocOk env _ (hA _), uninitialized_copy_n_of_copyOk env hC]
  refine ⟨_, rfl, ⟨?_, ?_⟩, ?_, ?_, ?_⟩
  · exact Nat.le_refl _
  · left
    simp [length_uninitialized_move_n]
  · exact hsz
  · exact hsz
  · apply elems_eq_of_slots
    · exact hsz
    · intro i hi
      simp only [slot_uninitialized_move_n, slot_replicate_none, List.length_replicate]
      rw [if_pos (by omega), ← hslot _ hi]
      congr 1; omega

theorem copy_of_alloc_fails (env : Env T) (o : Vector T)
    (h : env.allocOk (o.sz_ + 1) = false) : copy env o = .error .bad_alloc := by
  simp [copy, RawMemory.new, RawMemory.Allocate, h]

theorem copy_of_elem_fails (env : Env T) (o : Vector T) (so : List T) (co : Nat)
    (ho : o.Holds so co) (hA : env.allocOk (o.sz_ + 1) = true) (x : T) (hx : x ∈ so)
    (hbad : env.copyOk x = false) : copy env o = .error .elem_throw := by
  obtain ⟨⟨hle, hshape⟩, hc, hsz, hel⟩ := ho
  have hslot := slots_of_elems_eq o so hsz hel
  obtain ⟨k, hk, hkx⟩ := List.getElem_of_mem hx
  have h1 : slot o.data_.buf_ (0 + k) = some x := by
    rw [Nat.zero_add, hslot k hk, List.getElem?_eq_getElem hk, hkx]
  have h2 := uninitialized_copy_n_fails env o.data_.buf_ 0 o.sz_
    (List.replicate (o.sz_ + 1) none) 0 k (by omega) (by rw [h1]; exact hbad)
  have h3 : uninitialized_copy_n env o.data_.buf_ 0 o.sz_ (List.replicate (o.sz_ + 1) none) 0 =
      ((uninitialized_copy_n env o.data_.buf_ 0 o.sz_
        (List.replicate (o.sz_ + 1) none) 0).1, false) := Prod.ext rfl h2
  simp only [copy, RawMemory.new_of_allocOk env _ hA]
  rw [h3]

theorem assign_of_copy_fails (env : Env T) (d o : Vector T) (f : Failure)
    (hgt : o.sz_ > d.data_.cp_) (hfail : copy env o = .error f) :
    assign env d o = { self := d, other := o, ret := .error f } := by
  unfold assign
  rw [if_pos hgt, hfail]

theorem assign_holds (env : Env T) (d o : Vector T) (sd so : List T) (cd co : Nat)
    (hd : d.Holds sd cd) (ho : o.Holds so co) (hE : env.NoFail) :
    (assign env d o).ret = .ok () ∧ (assign env d o).other = o ∧
      (assign env d o).self.Holds so (if so.length > cd then so.length else cd) := by
  obtain ⟨hA, hC, hAs⟩ := hE
  by_cases hgt : o.sz_ > d.data_.cp_
  · obtain ⟨w, hw, hwh⟩ := copy_holds env o so co ho hA hC
    unfold assign
    rw [if_pos hgt, hw]
    refine ⟨rfl, rfl, ?_⟩
    rw [if_pos (by rw [← ho.2.2.1, ← hd.2.1]; exact hgt)]
    exact hwh
  · obtain ⟨⟨hle, hshape⟩, hc, hsz, hel⟩ := hd
    obtain ⟨⟨hleo, hshapeo⟩, hco, hszo, helo⟩ := ho
    have hslot := slots_of_elems_eq o so hszo helo
    unfold assign
    simp only [if_neg hgt, assign_n_of_assignOk env hAs, uninitialized_copy_n_of_copyOk env hC]
    rw [if_neg (show ¬ so.length > cd by omega)]
    by_cases h1 : o.sz_ < d.sz_
    · simp only [if_pos h1]
      refine ⟨trivial, trivial, ⟨?_, ?_⟩, hc, hszo, ?_⟩
      · show o.sz_ ≤ d.data_.cp_
        omega
      · simpa [length_destroy_n, length_uninitialized_move_n] using hshape
      · apply elems_eq_of_slots
        · exact hszo
        · intro i hi
          simp only [slot_destroy_n, slot_uninitialized_move_n]
          rw [if_neg (by omega), if_pos (by omega), ← hslot i hi]
          congr 1; omega
    · by_cases h2 : o.sz_ > d.sz_
      · simp only [if_neg h1, if_pos h2]
        refine ⟨trivial, trivial, ⟨?_, ?_⟩, hc, hszo, ?_⟩
        · show o.sz_ ≤ d.data_.cp_
          omega
        · simpa [length_uninitialized_move_n] using hshape
        · apply elems_eq_of_slots
          · exact hszo
          · intro i hi
            simp only [slot_uninitialized_move_n, length_uninitialized_move_n]
            by_cases h3 : i < d.sz_
            · rw [if_neg (by omega), if_pos (by omega), ← hslot i hi]
              congr 1; omega
            · rw [if_pos (by omega), ← hslot i hi]
              congr 1; omega
      · simp only [if_neg h1, if_neg h2]
        refine ⟨trivial, trivial, ⟨?_, ?_⟩, hc, hszo, ?_⟩
        · show o.sz_ ≤ d.data_.cp_
          omega
        · simpa [length_uninitialized_move_n] using hshape
        · apply elems_eq_of_slots
          · exact hszo
          · intro i hi
            simp only [slot_uninitialized_move_n]
            rw [if_pos (by omega), ← hslot i hi]
            congr 1; omega

theorem isLeastPow2_one : IsLeastPow2 1 1 :=
  ⟨⟨0, rfl⟩, Nat.le_refl 1, fun _ h => h⟩

theorem isLeastPow2_step (c k : Nat) (hk : 0 < k) (h : IsLeastPow2 c k) :
    IsLeastPow2 (if k = c then max 1 (2 * c) else c) (k + 1) := by
  obtain ⟨⟨j0, hj0⟩, hle, hleast⟩ := h
  by_cases hkc : k = c
  · rw [if_pos hkc]
    have h2c : max 1 (2 * c) = 2 ^ (j0 + 1) := by rw [Nat.pow_succ, ← hj0]; omega
    refine ⟨⟨j0 + 1, h2c⟩, by omega, ?_⟩
    intro j hj
    rw [h2c]
    have hlt : 2 ^ j0 < 2 ^ j := by omega
    have hj0j : j0 < j := (Nat.pow_lt_pow_iff_right (by decide)).1 hlt
    exact Nat.pow_le_pow_right (by decide) hj0j
  · rw [if_neg hkc]
    exact ⟨⟨j0, hj0⟩, by omega, fun j hj => hleast j (by omega)⟩

theorem PushBack_grow (env : Env T) (v : Vector T) (s : List T) (c : Nat) (x : T)
    (hv : v.Holds s c) (hg : (s = [] ∧ c = 0) ∨ (s ≠ [] ∧ IsLeastPow2 c s.length))
    (hE : env.NoFail) :
    (PushBack env v x).ret = .ok () ∧
      ∃ c2, (PushBack env v x).self.Holds (s ++ [x]) c2 ∧ IsLeastPow2 c2 (s.length + 1) ∧
        c ≤ c2 := by
  rw [PushBack_eq_PushBackMove env v x (hE.2.1 x)]
  obtain ⟨hret, hh⟩ := PushBackMove_holds env v s c x hv hE.1
  refine ⟨hret, _, hh, ?_, ?_⟩
  · rcases hg with ⟨hs, hc⟩ | ⟨hs, hl⟩
    · subst hs; subst hc
      exact isLeastPow2_one
    · exact isLeastPow2_step c s.length (List.length_pos.2 hs) hl
  · split_ifs <;> omega

theorem pushAll_holds (env : Env T) (xs : List T) (v : Vector T) (s : List T) (c : Nat)
    (hv : v.Holds s c) (hg : (s = [] ∧ c = 0) ∨ (s ≠ [] ∧ IsLeastPow2 c s.length))
    (hE : env.NoFail) :
    (pushAll env v xs).ret = .ok () ∧
      ∃ c2, (pushAll env v xs).self.Holds (s ++ xs) c2 ∧
        ((s ++ xs = [] ∧ c2 = 0) ∨ (s ++ xs ≠ [] ∧ IsLeastPow2 c2 (s ++ xs).length)) ∧
        c ≤ c2 := by
  induction xs generalizing v s c with
  | nil =>
    simp only [pushAll, List.append_nil]
    exact ⟨trivial, c, hv, hg, Nat.le_refl c⟩
  | cons x xs ih =>
    obtain ⟨hret, c1, hh, hl, hle⟩ := PushBack_grow env v s c x hv hg hE
    have hne : s ++ [x] ≠ [] := by simp
    obtain ⟨hret2, c2, hh2, hg2, hle2⟩ :=
      ih (PushBack env v x).self (s ++ [x]) c1 hh (Or.inr ⟨hne, by simpa using hl⟩)
    simp only [pushAll, hret]
    refine ⟨hret2, c2, ?_, ?_, by omega⟩
    · simpa using hh2
    · simpa using hg2

theorem pushAll_snoc (env : Env T) (xs : List T) (v : Vector T) (x : T)
    (h : (pushAll env v xs).ret = .ok ()) :
    pushAll env v (xs ++ [x]) = pushAll env (pushAll env v xs).self [x] := by
  induction xs generalizing v with
  | nil => rfl
  | cons y ys ih =>
    simp only [pushAll, List.cons_append] at h ⊢
    cases hr : (PushBack env v y).ret with
    | error f => simp [hr] at h
    | ok u =>
      simp only [hr] at h ⊢
      exact ih _ h

theorem default_holds : (({} : Vector T)).Holds [] 0 :=
  ⟨⟨Nat.le_refl 0, Or.inr ⟨rfl, rfl⟩⟩, rfl, rfl, rfl⟩

theorem total_noFail (d : T) : (Env.total d).NoFail :=
  ⟨fun _ => rfl, fun _ => rfl, fun _ => rfl⟩

theorem exEnv_allocOk : ∀ n, exEnv.allocOk n = true := fun _ => rfl

theorem ex2_holds : ex2.Holds [10, 20] 2 :=
  ⟨⟨by decide, Or.inl rfl⟩, rfl, rfl, rfl⟩

theorem ex3_holds : ex3.Holds [10, 15, 20] 4 :=
  ⟨⟨by decide, Or.inl rfl⟩, rfl, rfl, rfl⟩

theorem take_drop_insert (s : List T) (i : Nat) (x : T) (hi : i ≤ s.length) :
    (s.take i ++ x :: s.drop i).take i ++ (s.take i ++ x :: s.drop i).drop (i + 1) = s := by
  have hl : (s.take i).length = i := by simp [hi]
  have h1 : (s.take i ++ x :: s.drop i).take i = s.take i := List.take_left' hl
  have h2 : (s.take i ++ x :: s.drop i).drop (i + 1) = s.drop i := by
    have h3 : s.take i ++ x :: s.drop i = (s.take i ++ [x]) ++ s.drop i := by simp
    rw [h3]
    exact List.drop_left' (by simp [hl])
  rw [h1, h2, List.take_append_drop]

theorem Holds.index {v : Vector T} {s : List T} {c : Nat} (h : v.Holds s c) (i : Nat)
    (hi : i < s.length) : v.index i = s[i]? :=
  h.slot i hi

/-- C1: for a container with live sequence `s` and capacity `c ≥ |s|`, an
index `p ≤ |s|` and a value `x`, `Insert(p, x)` (by copy and by move, no
allocation and no copy failing) returns the position of index `p`, which
designates the new element, and leaves the live sequence
`s[0..p) ++ [x] ++ s[p..|s|)`, of size `|s| + 1`. -/
theorem Insert_contract (env : Env T) (v : Vector T) (s : List T) (c p : Nat) (x : T)
    (hv : v.Holds s c) (hp : p ≤ s.length) (hA : ∀ n, env.allocOk n = true)
    (hC : env.copyOk x = true) :
    ((Insert env v p x).ret = .ok p ∧
      (Insert env v p x).self.elems = (s.take p ++ [x] ++ s.drop p).map some ∧
      (Insert env v p x).self.Size = s.length + 1 ∧
      (Insert env v p x).self.index p = some x) ∧
    ((InsertMove env v p x).ret = .ok p ∧
      (InsertMove env v p x).self.elems = (s.take p ++ [x] ++ s.drop p).map some ∧
      (InsertMove env v p x).self.Size = s.length + 1 ∧
      (InsertMove env v p x).self.index p = some x) := by
  rw [Insert_eq_InsertMove env v p x hC]
  obtain ⟨hret, hh⟩ := InsertMove_holds env v s c p x hv hp hA
  have hlen : (s.take p ++ x :: s.drop p).length = s.length + 1 := by
    simp only [List.length_append, List.length_take, List.length_cons, List.length_drop]
    omega
  have hidx : (InsertMove env v p x).self.index p = some x := by
    rw [hh.index p (by omega), getElem?_insert s p x p hp]
    simp
  have hall : (InsertMove env v p x).ret = .ok p ∧
      (InsertMove env v p x).self.elems = (s.take p ++ [x] ++ s.drop p).map some ∧
      (InsertMove env v p x).self.Size = s.length + 1 ∧
      (InsertMove env v p x).self.index p = some x := by
    refine ⟨hret, ?_, ?_, hidx⟩
    · rw [hh.2.2.2]; simp
    · show (InsertMove env v p x).self.sz_ = _
      rw [hh.2.2.1, hlen]
  exact ⟨hall, hall⟩

/-- Witness of C1: inserting 15 at index 1 of the container `[10, 20]`. -/
theorem Insert_contract_witness :
    ex2.Holds [10, 20] 2 ∧
    ((Insert exEnv ex2 1 15).ret = .ok 1 ∧
      (Insert exEnv ex2 1 15).self.elems = [some 10, some 15, some 20] ∧
      (Insert exEnv ex2 1 15).self.Size = 3 ∧
      (Insert exEnv ex2 1 15).self.index 1 = some 15) ∧
    ((InsertMove exEnv ex2 1 15).ret = .ok 1 ∧
      (InsertMove exEnv ex2 1 15).self.elems = [some 10, some 15, some 20] ∧
      (InsertMove exEnv ex2 1 15).self.Size = 3 ∧
      (InsertMove exEnv ex2 1 15).self.index 1 = some 15) :=
  ⟨ex2_holds, Insert_contract exEnv ex2 [10, 20] 2 1 15 ex2_holds (by decide) exEnv_allocOk rfl⟩

/-- C2: for a container with live sequence `s` and an index `p < |s|`,
`Erase(p)` (its allocation succeeding) leaves the live sequence
`s[0..p) ++ s[p+1..|s|)`, of size `|s| - 1`, and returns the position of index
`p`, which designates the element formerly at `p + 1`, or is `end()` when `p`
was the last index.  The scenario `Append(10); Append(20); Insert(1, 15);
Erase(0)` ends with `[15, 20]` and size 2. -/
theorem Erase_contract (env : Env T) (v : Vector T) (s : List T) (c p : Nat)
    (hv : v.Holds s c) (hp : p < s.length) (hA : ∀ n, env.allocOk n = true) :
    (Erase env v p).ret = .ok p ∧
      (Erase env v p).self.elems = (s.take p ++ s.drop (p + 1)).map some ∧
      (Erase env v p).self.Size = s.length - 1 ∧
      (p + 1 < s.length → (Erase env v p).self.index p = s[p + 1]?) ∧
      (p + 1 = s.length → p = (Erase env v p).self.end_) ∧
      (scenario.elems = [some 15, some 20] ∧ scenario.Size = 2) := by
  obtain ⟨hret, hh⟩ := Erase_holds env v s c p hv hp hA
  have hlen : (s.take p ++ s.drop (p + 1)).length = s.length - 1 := by
    simp only [List.length_append, List.length_take, List.length_drop]
    omega
  have hsz : (Erase env v p).self.sz_ = s.length - 1 := by rw [hh.2.2.1, hlen]
  refine ⟨hret, hh.2.2.2, hsz, ?_, ?_, rfl, rfl⟩
  · intro h
    rw [hh.index p (by omega), getElem?_erase s p p (by omega), if_neg (Nat.lt_irrefl p)]
  · intro h
    show p = (Erase env v p).self.sz_
    omega

/-- Witness of C2: the last step of the scenario, `Erase(0)` on `[10, 15, 20]`. -/
theorem Erase_contract_witness :
    ex3.Holds [10, 15, 20] 4 ∧
    (Erase exEnv ex3 0).ret = .ok 0 ∧
      (Erase exEnv ex3 0).self.elems = [some 15, some 20] ∧
      (Erase exEnv ex3 0).self.Size = 2 ∧
      (Erase exEnv ex3 0).self.index 0 = some 15 :=
  have h := Erase_contract exEnv ex3 [10, 15, 20] 4 0 ex3_holds (by decide) exEnv_allocOk
  ⟨ex3_holds, h.1, h.2.1, h.2.2.1, h.2.2.2.1 (by decide)⟩

/-- C3: for a valid container with live sequence `s`, an index `i ≤ |s|` and a
value `x`, `Insert(i, x)` returns the position of index `i`, and `Erase` at
that position restores the live sequence `s` and the size `|s|` (by copy and
by move, no allocation and no copy failing). -/
theorem Insert_then_Erase (env : Env T) (v : Vector T) (s : List T) (c i : Nat) (x : T)
    (hv : v.Holds s c) (hi : i ≤ s.length) (hA : ∀ n, env.allocOk n = true)
    (hC : env.copyOk x = true) :
    ((Insert env v i x).ret = .ok i ∧
      (Erase env (Insert env v i x).self i).ret = .ok i ∧
      (Erase env (Insert env v i x).self i).self.elems = s.map some ∧
      (Erase env (Insert env v i x).self i).self.Size = s.length) ∧
    ((InsertMove env v i x).ret = .ok i ∧
      (Erase env (InsertMove env v i x).self i).ret = .ok i ∧
      (Erase env (InsertMove env v i x).self i).self.elems = s.map some ∧
      (Erase env (InsertMove env v i x).self i).self.Size = s.length) := by
  rw [Insert_eq_InsertMove env v i x hC]
  obtain ⟨hret, hh⟩ := InsertMove_holds env v s c i x hv hi hA
  have hlen : (s.take i ++ x :: s.drop i).length = s.length + 1 := by
    simp only [List.length_append, List.length_take, List.length_cons, List.length_drop]
    omega
  obtain ⟨hret2, hh2⟩ := Erase_holds env _ _ _ i hh (by omega) hA
  rw [take_drop_insert s i x hi] at hh2
  have hall : (InsertMove env v i x).ret = .ok i ∧
      (Erase env (InsertMove env v i x).self i).ret = .ok i ∧
      (Erase env (InsertMove env v i x).self i).self.elems = s.map some ∧
      (Erase env (InsertMove env v i x).self i).self.Size = s.length :=
    ⟨hret, hret2, hh2.2.2.2, hh2.2.2.1⟩
  exact ⟨hall, hall⟩

/-- Witness of C3: inserting 15 at index 1 of `[10, 20]` and erasing it again. -/
theorem Insert_then_Erase_witness :
    ex2.Holds [10, 20] 2 ∧
    ((Insert exEnv ex2 1 15).ret = .ok 1 ∧
      (Erase exEnv (Insert exEnv ex2 1 15).self 1).ret = .ok 1 ∧
      (Erase exEnv (Insert exEnv ex2 1 15).self 1).self.elems = [some 10, some 20] ∧
      (Erase exEnv (Insert exEnv ex2 1 15).self 1).self.Size = 2) ∧
    ((InsertMove exEnv ex2 1 15).ret = .ok 1 ∧
      (Erase exEnv (InsertMove exEnv ex2 1 15).self 1).ret = .ok 1 ∧
      (Erase exEnv (InsertMove exEnv ex2 1 15).self 1).self.elems = [some 10, some 20] ∧
      (Erase exEnv (InsertMove exEnv ex2 1 15).self 1).self.Size = 2) :=
  ⟨ex2_holds, Insert_then_Erase exEnv ex2 [10, 20] 2 1 15 ex2_holds (by decide) exEnv_allocOk rfl⟩

theorem exEnv_noFail : exEnv.NoFail := total_noFail 0

/-- C4: copy-assigning a source `o` (live sequence `so`) to a destination `d`
(capacity `cd`), no allocation and no element operation failing, completes,
leaves `d` with the live sequence and the size of `o`, and leaves `o` as it
was; the capacity of `d` becomes exactly `|so|` when `|so| > cd` and stays
`cd` when `|so| ≤ cd`, whether `o` is shorter than, as long as, or longer
than `d`. -/
theorem assign_contract (env : Env T) (d o : Vector T) (sd so : List T) (cd co : Nat)
    (hd : d.Holds sd cd) (ho : o.Holds so co) (hE : env.NoFail) :
    (assign env d o).ret = .ok () ∧
      (assign env d o).self.elems = so.map some ∧
      (assign env d o).self.Size = so.length ∧
      (assign env d o).self.elems = o.elems ∧
      (assign env d o).self.Size = o.Size ∧
      (assign env d o).other = o ∧
      (so.length > cd → (assign env d o).self.Capacity = so.length) ∧
      (so.length ≤ cd → (assign env d o).self.Capacity = cd) := by
  obtain ⟨hret, hother, hh⟩ := assign_holds env d o sd so cd co hd ho hE
  refine ⟨hret, hh.2.2.2, hh.2.2.1, ?_, ?_, hother, ?_, ?_⟩
  · rw [hh.2.2.2, ho.2.2.2]
  · show (assign env d o).self.sz_ = o.sz_
    rw [hh.2.2.1, ho.2.2.1]
  · intro h
    show (assign env d o).self.data_.cp_ = _
    rw [hh.2.1, if_pos h]
  · intro h
    show (assign env d o).self.data_.cp_ = _
    rw [hh.2.1, if_neg (by omega)]

/-- Witness of C4: assigning `[10, 15, 20]` to the container `[10, 20]` of
capacity 2 (the reallocating branch). -/
theorem assign_contract_witness :
    ex2.Holds [10, 20] 2 ∧ ex3.Holds [10, 15, 20] 4 ∧ exEnv.NoFail ∧
    (assign exEnv ex2 ex3).ret = .ok () ∧
      (assign exEnv ex2 ex3).self.elems = [some 10, some 15, some 20] ∧
      (assign exEnv ex2 ex3).self.Size = 3 ∧
      (assign exEnv ex2 ex3).other = ex3 ∧
      (assign exEnv ex2 ex3).self.Capacity = 3 :=
  have h := assign_contract exEnv ex2 ex3 [10, 20] [10, 15, 20] 2 4 ex2_holds ex3_holds
    exEnv_noFail
  ⟨ex2_holds, ex3_holds, exEnv_noFail, h.1, h.2.1, h.2.2.1, h.2.2.2.2.2.1,
    h.2.2.2.2.2.2.1 (by decide)⟩

/-- C5: in the reallocating branch of copy assignment (`o.sz_ > d.cp_`), when
building the copy of `o` fails, the assignment throws that failure and `d` is
exactly what it was: same size, same capacity, same elements.  The copy does
fail when the allocation fails and when the copy of one of the elements of
`o` fails. -/
theorem assign_strong_guarantee (env : Env T) (d o : Vector T) (so : List T) (co : Nat)
    (ho : o.Holds so co) (hgt : o.sz_ > d.data_.cp_) :
    (∀ f, copy env o = .error f →
      (assign env d o).ret = .error f ∧ (assign env d o).self = d ∧
        (assign env d o).self.Size = d.Size ∧ (assign env d o).self.Capacity = d.Capacity ∧
        (assign env d o).self.elems = d.elems) ∧
    (env.allocOk (o.sz_ + 1) = false → copy env o = .error .bad_alloc) ∧
    (env.allocOk (o.sz_ + 1) = true → (∃ x, x ∈ so ∧ env.copyOk x = false) →
      copy env o = .error .elem_throw) := by
  refine ⟨?_, copy_of_alloc_fails env o, ?_⟩
  · intro f hf
    rw [assign_of_copy_fails env d o f hgt hf]
    exact ⟨rfl, rfl, rfl, rfl, rfl⟩
  · rintro hA ⟨x, hx, hbad⟩
    exact copy_of_elem_fails env o so co ho hA x hx hbad

/-- Witness of C5: assigning `[10, 15, 20]` to the container `[10, 20]` of
capacity 2 when the allocator fails, and when the copy of the value 20 throws. -/
theorem assign_strong_guarantee_witness :
    ex3.Holds [10, 15, 20] 4 ∧ ex3.sz_ > ex2.data_.cp_ ∧
    ((assign exNoMemory ex2 ex3).ret = .error .bad_alloc ∧
      (assign exNoMemory ex2 ex3).self = ex2) ∧
    ((assign exNoCopy ex2 ex3).ret = .error .elem_throw ∧
      (assign exNoCopy ex2 ex3).self = ex2) :=
  have h1 := assign_strong_guarantee exNoMemory ex2 ex3 [10, 15, 20] 4 ex3_holds (by decide)
  have h2 := assign_strong_guarantee exNoCopy ex2 ex3 [10, 15, 20] 4 ex3_holds (by decide)
  have r1 := h1.1 .bad_alloc (h1.2.1 rfl)
  have r2 := h2.1 .elem_throw (h2.2.2 rfl ⟨20, by decide, rfl⟩)
  ⟨ex3_holds, by decide, ⟨r1.1, r1.2.1⟩, ⟨r2.1, r2.2.1⟩⟩

/-- C8: for a container with live sequence `s` and capacity `c ≥ |s|` and a
value `x`, `PushBack(x)` (by copy and by move, no allocation and no copy
failing) leaves the live sequence `s ++ [x]`, of size `|s| + 1`; the capacity
becomes `max(1, 2 * c)` when `|s| = c` and stays `c` when `|s| < c`. -/
theorem PushBack_contract (env : Env T) (v : Vector T) (s : List T) (c : Nat) (x : T)
    (hv : v.Holds s c) (hA : ∀ m, env.allocOk m = true) (hC : env.copyOk x = true) :
    ((PushBack env v x).ret = .ok () ∧
      (PushBack env v x).self.elems = (s ++ [x]).map some ∧
      (PushBack env v x).self.Size = s.length + 1 ∧
      (s.length = c → (PushBack env v x).self.Capacity = max 1 (2 * c)) ∧
      (s.length < c → (PushBack env v x).self.Capacity = c)) ∧
    ((PushBackMove env v x).ret = .ok () ∧
      (PushBackMove env v x).self.elems = (s ++ [x]).map some ∧
      (PushBackMove env v x).self.Size = s.length + 1 ∧
      (s.length = c → (PushBackMove env v x).self.Capacity = max 1 (2 * c)) ∧
      (s.length < c → (PushBackMove env v x).self.Capacity = c)) := by
  rw [PushBack_eq_PushBackMove env v x hC]
  obtain ⟨hret, hh⟩ := PushBackMove_holds env v s c x hv hA
  have hall : (PushBackMove env v x).ret = .ok () ∧
      (PushBackMove env v x).self.elems = (s ++ [x]).map some ∧
      (PushBackMove env v x).self.Size = s.length + 1 ∧
      (s.length = c → (PushBackMove env v x).self.Capacity = max 1 (2 * c)) ∧
      (s.length < c → (PushBackMove env v x).self.Capacity = c) := by
    refine ⟨hret, hh.2.2.2, ?_, ?_, ?_⟩
    · show (PushBackMove env v x).self.sz_ = _
      rw [hh.2.2.1]; simp
    · intro h
      show (PushBackMove env v x).self.data_.cp_ = _
      rw [hh.2.1, if_pos h]
    · intro h
      show (PushBackMove env v x).self.data_.cp_ = _
      rw [hh.2.1, if_neg (by omega)]
  exact ⟨hall, hall⟩

/-- Witness of C8: appending 30 to the full container `[10, 20]` of capacity 2
and to the container `[10, 15, 20]` of capacity 4. -/
theorem PushBack_contract_witness :
    ex2.Holds [10, 20] 2 ∧ ex3.Holds [10, 15, 20] 4 ∧
    ((PushBack exEnv ex2 30).self.elems = [some 10, some 20, some 30] ∧
      (PushBack exEnv ex2 30).self.Size = 3 ∧
      (PushBack exEnv ex2 30).self.Capacity = 4) ∧
    ((PushBackMove exEnv ex3 30).self.elems = [some 10, some 15, some 20, some 30] ∧
      (PushBackMove exEnv ex3 30).self.Size = 4 ∧
      (PushBackMove exEnv ex3 30).self.Capacity = 4) :=
  have h2 := (PushBack_contract exEnv ex2 [10, 20] 2 30 ex2_holds exEnv_allocOk rfl).1
  have h3 := (PushBack_contract exEnv ex3 [10, 15, 20] 4 30 ex3_holds exEnv_allocOk rfl).2
  ⟨ex2_holds, ex3_holds, ⟨h2.2.1, h2.2.2.1, h2.2.2.2.1 rfl⟩,
    ⟨h3.2.1, h3.2.2.1, h3.2.2.2.2 (by decide)⟩⟩

/-- C9: starting from the empty container (size 0, capacity 0) and appending
the values of a sequence in turn (no allocation and no copy failing), the
append of one more value `x` after those of `xs` completes, does not decrease
the capacity, and leaves a capacity that is at least the size and is the
smallest power of two at least the number `|xs| + 1` of values appended, the
size `|xs| + 1` and the elements `xs ++ [x]`.  Appending 1, 2, 3 gives the
capacities 1, 2, 4, the size 3 and the elements `[1, 2, 3]`. -/
theorem Append_growth (env : Env T) (xs : List T) (x : T) (hE : env.NoFail) :
    (pushAll env {} xs).ret = .ok () ∧
      pushAll env {} (xs ++ [x]) = PushBack env (pushAll env {} xs).self x ∧
      (pushAll env {} (xs ++ [x])).ret = .ok () ∧
      (pushAll env {} xs).self.Capacity ≤ (pushAll env {} (xs ++ [x])).self.Capacity ∧
      (pushAll env {} (xs ++ [x])).self.Size ≤ (pushAll env {} (xs ++ [x])).self.Capacity ∧
      IsLeastPow2 (pushAll env {} (xs ++ [x])).self.Capacity (xs.length + 1) ∧
      (pushAll env {} (xs ++ [x])).self.Size = xs.length + 1 ∧
      (pushAll env {} (xs ++ [x])).self.elems = (xs ++ [x]).map some ∧
      ((pushAll exEnv {} [1]).self.Capacity = 1 ∧ (pushAll exEnv {} [1, 2]).self.Capacity = 2 ∧
        (pushAll exEnv {} [1, 2, 3]).self.Capacity = 4 ∧
        (pushAll exEnv {} [1, 2, 3]).self.Size = 3 ∧
        (pushAll exEnv {} [1, 2, 3]).self.elems = [some 1, some 2, some 3]) := by
  obtain ⟨hret, c1, hh1, hg1, _⟩ :=
    pushAll_holds env xs {} [] 0 default_holds (Or.inl ⟨rfl, rfl⟩) hE
  simp only [List.nil_append] at hh1 hg1
  obtain ⟨hret2, c2, hh2, hl2, hle⟩ := PushBack_grow env _ xs c1 x hh1 hg1 hE
  have hsnoc : pushAll env {} (xs ++ [x]) = PushBack env (pushAll env {} xs).self x := by
    rw [pushAll_snoc env xs {} x hret]
    simp only [pushAll, hret2]
    cases hp : PushBack env (pushAll env {} xs).self x with
    | mk w r =>
      rw [hp] at hret2
      simp only at hret2
      subst hret2
      rfl
  rw [hsnoc]
  have hsz : (PushBack env (pushAll env {} xs).self x).self.sz_ = xs.length + 1 := by
    rw [hh2.2.2.1]; simp
  have hcap : (PushBack env (pushAll env {} xs).self x).self.data_.cp_ = c2 := hh2.2.1
  have hcap1 : (pushAll env {} xs).self.data_.cp_ = c1 := hh1.2.1
  refine ⟨hret, rfl, hret2, ?_, ?_, ?_, hsz, hh2.2.2.2, rfl, rfl, rfl, rfl, rfl⟩
  · show (pushAll env {} xs).self.data_.cp_ ≤ (PushBack env _ x).self.data_.cp_
    omega
  · show (PushBack env _ x).self.sz_ ≤ (PushBack env _ x).self.data_.cp_
    rw [hsz, hcap]
    exact hl2.2.1
  · show IsLeastPow2 (PushBack env _ x).self.data_.cp_ _
    rw [hcap]
    exact hl2

/-- Witness of C9: appending 1, 2 and then 3. -/
theorem Append_growth_witness :
    exEnv.NoFail ∧
    (pushAll exEnv {} [1, 2, 3]).ret = .ok () ∧
      (pushAll exEnv {} [1, 2]).self.Capacity ≤ (pushAll exEnv {} [1, 2, 3]).self.Capacity ∧
      IsLeastPow2 (pushAll exEnv {} [1, 2, 3]).self.Capacity 3 ∧
      (pushAll exEnv {} [1, 2, 3]).self.Size = 3 ∧
      (pushAll exEnv {} [1, 2, 3]).self.elems = [some 1, some 2, some 3] :=
  have h := Append_growth exEnv [1, 2] 3 exEnv_noFail
  ⟨exEnv_noFail, h.2.2.1, h.2.2.2.1, h.2.2.2.2.2.1, h.2.2.2.2.2.2.1, h.2.2.2.2.2.2.2.1⟩

/-- C10: for a container with live sequence `s` and a value `x`, `PushBack(x)`
(by copy and by move, no allocation and no copy failing) immediately followed
by `PopBack()` leaves the size `|s|` and the live sequence `s`, every element
unchanged. -/
theorem PushBack_then_PopBack (env : Env T) (v : Vector T) (s : List T) (c : Nat) (x : T)
    (hv : v.Holds s c) (hA : ∀ m, env.allocOk m = true) (hC : env.copyOk x = true) :
    ((PushBack env v x).ret = .ok () ∧
      (PopBack (PushBack env v x).self).Size = s.length ∧
      (PopBack (PushBack env v x).self).elems = s.map some ∧
      (PopBack (PushBack env v x).self).elems = v.elems) ∧
    ((PushBackMove env v x).ret = .ok () ∧
      (PopBack (PushBackMove env v x).self).Size = s.length ∧
      (PopBack (PushBackMove env v x).self).elems = s.map some ∧
      (PopBack (PushBackMove env v x).self).elems = v.elems) := by
  rw [PushBack_eq_PushBackMove env v x hC]
  obtain ⟨hret, hh⟩ := PushBackMove_holds env v s c x hv hA
  have hp := PopBack_holds _ s _ x hh
  have hall : (PushBackMove env v x).ret = .ok () ∧
      (PopBack (PushBackMove env v x).self).Size = s.length ∧
      (PopBack (PushBackMove env v x).self).elems = s.map some ∧
      (PopBack (PushBackMove env v x).self).elems = v.elems :=
    ⟨hret, hp.2.2.1, hp.2.2.2, by rw [hp.2.2.2, hv.2.2.2]⟩
  exact ⟨hall, hall⟩

/-- Witness of C10: appending 30 to the container `[10, 20]` and removing it again. -/
theorem PushBack_then_PopBack_witness :
    ex2.Holds [10, 20] 2 ∧
    (PopBack (PushBack exEnv ex2 30).self).Size = 2 ∧
      (PopBack (PushBack exEnv ex2 30).self).elems = [some 10, some 20] :=
  have h := (PushBack_then_PopBack exEnv ex2 [10, 20] 2 30 ex2_holds exEnv_allocOk rfl).1
  ⟨ex2_holds, h.2.1, h.2.2.1⟩

theorem Swap_eq (v other : Vector T) : Swap v other = (other, v) := rfl

theorem sized_holds (env : Env T) (n : Nat) (hA : env.allocOk (n + 1) = true) :
    ∃ w, sized env n = .ok w ∧ w.Holds (List.replicate n env.dflt) n := by
  unfold sized
  simp only [RawMemory.new_of_allocOk env _ hA]
  refine ⟨_, rfl, ⟨Nat.le_refl n, Or.inl ?_⟩, rfl, ?_, ?_⟩
  · simp [length_uninitialized_value_construct_n]
  · simp
  · apply elems_eq_of_slots
    · simp
    · intro i hi
      simp only [List.length_replicate] at hi
      simp only [slot_uninitialized_value_construct_n, List.length_replicate]
      rw [if_pos (by omega), List.getElem?_replicate, if_pos hi]

/-- C11: move-constructing `b` from a container `a` with live sequence `s` of
size `k` and capacity `c` gives `b` the size `k`, the elements of `s` in
order and the capacity `c`, and leaves `a` with size 0 and capacity 0.  This
holds for `k > 0` as claimed, and for `k = 0` as well. -/
theorem move_contract (a : Vector T) (s : List T) (c : Nat) (ha : a.Holds s c) :
    (move a).1.Size = s.length ∧ (move a).1.elems = s.map some ∧ (move a).1.Capacity = c ∧
      (move a).1 = a ∧ (move a).2.Size = 0 ∧ (move a).2.Capacity = 0 ∧
      (move a).2.elems = [] := by
  have h : move a = (a, {}) := rfl
  rw [h]
  exact ⟨ha.2.2.1, ha.2.2.2, ha.2.1, rfl, rfl, rfl, rfl⟩

/-- Witness of C11: move construction from the container `[10, 20]` of capacity 2. -/
theorem move_contract_witness :
    ex2.Holds [10, 20] 2 ∧
    (move ex2).1.Size = 2 ∧ (move ex2).1.elems = [some 10, some 20] ∧
      (move ex2).1.Capacity = 2 ∧ (move ex2).2.Size = 0 ∧ (move ex2).2.Capacity = 0 :=
  have h := move_contract ex2 [10, 20] 2 ex2_holds
  ⟨ex2_holds, h.1, h.2.1, h.2.2.1, h.2.2.2.2.1, h.2.2.2.2.2.1⟩

/-- C12: move-assigning `o` to `d` exchanges their states: afterwards `d` has
the prior size, capacity and live sequence of `o`, and `o` those of `d`.  The
operation has no failing outcome: it is a total function to the pair of
containers. -/
theorem moveAssign_contract (d o : Vector T) :
    (moveAssign d o).1 = o ∧ (moveAssign d o).2 = d ∧
      ((moveAssign d o).1.Size = o.Size ∧ (moveAssign d o).1.Capacity = o.Capacity ∧
        (moveAssign d o).1.elems = o.elems) ∧
      ((moveAssign d o).2.Size = d.Size ∧ (moveAssign d o).2.Capacity = d.Capacity ∧
        (moveAssign d o).2.elems = d.elems) := by
  have h : moveAssign d o = (o, d) := rfl
  rw [h]
  exact ⟨rfl, rfl, ⟨rfl, rfl, rfl⟩, ⟨rfl, rfl, rfl⟩⟩

/-- C14: for a container `o` with live sequence `s`, whatever its capacity `c`,
the copy constructor (no allocation and no copy failing) yields a container
of capacity exactly `|s|` and size `|s|` whose elements are those of `s` in
index order.  The source is a read-only argument: it is the same value
before and after the call. -/
theorem copy_contract (env : Env T) (o : Vector T) (s : List T) (c : Nat)
    (ho : o.Holds s c) (hA : ∀ n, env.allocOk n = true) (hC : ∀ x, env.copyOk x = true) :
    ∃ w, copy env o = .ok w ∧ w.Capacity = s.length ∧ w.Size = s.length ∧
      w.elems = s.map some ∧ w.elems = o.elems ∧
      (∀ i, i < s.length → w.index i = o.index i) := by
  obtain ⟨w, hw, hh⟩ := copy_holds env o s c ho hA hC
  refine ⟨w, hw, hh.2.1, hh.2.2.1, hh.2.2.2, by rw [hh.2.2.2, ho.2.2.2], ?_⟩
  intro i hi
  rw [hh.index i hi, ho.index i hi]

/-- Witness of C14: copying the container `[10, 15, 20]` of capacity 4. -/
theorem copy_contract_witness :
    ex3.Holds [10, 15, 20] 4 ∧
    ∃ w, copy exEnv ex3 = .ok w ∧ w.Capacity = 3 ∧ w.Size = 3 ∧
      w.elems = [some 10, some 15, some 20] :=
  have ⟨w, h⟩ := copy_contract exEnv ex3 [10, 15, 20] 4 ex3_holds exEnv_allocOk (fun _ => rfl)
  ⟨ex3_holds, w, h.1, h.2.1, h.2.2.1, h.2.2.2.1⟩

/-- C17: when the allocation a call performs fails, `Reserve`, `Resize`,
`PushBack` (by copy and by move) and `Insert` (by copy and by move) throw
`bad_alloc` and leave the container exactly as it was: same buffer, same
capacity, same size. -/
theorem alloc_failure_leaves_container (env : Env T) (v : Vector T) (n pos : Nat) (x : T) :
    (n > v.data_.cp_ → env.allocOk (n + 1) = false →
      Reserve env v n = { self := v, ret := .error .bad_alloc } ∧
      Resize env v n = { self := v, ret := .error .bad_alloc }) ∧
    (v.sz_ = v.data_.cp_ → env.allocOk ((if v.sz_ = 0 then 1 else v.sz_ * 2) + 1) = false →
      PushBack env v x = { self := v, ret := .error .bad_alloc } ∧
      PushBackMove env v x = { self := v, ret := .error .bad_alloc }) ∧
    (env.allocOk ((if v.sz_ = v.data_.cp_ then (if v.sz_ = 0 then 1 else 2 * v.sz_)
        else v.data_.cp_) + 1) = false →
      Insert env v pos x = { self := v, ret := .error .bad_alloc } ∧
      InsertMove env v pos x = { self := v, ret := .error .bad_alloc }) := by
  refine ⟨?_, ?_, ?_⟩
  · intro hn hA
    have hr : Reserve env v n = { self := v, ret := .error .bad_alloc } := by
      simp [Reserve, hn, RawMemory.new, RawMemory.Allocate, hA]
    refine ⟨hr, ?_⟩
    simp [Resize, hr]
  · intro hfull hA
    have hr : Reserve env v (if v.sz_ = 0 then 1 else v.sz_ * 2) =
        { self := v, ret := .error .bad_alloc } := by
      have hn : (if v.sz_ = 0 then 1 else v.sz_ * 2) > v.data_.cp_ := by
        split_ifs <;> omega
      simp only [Reserve, if_pos hn, RawMemory.new, RawMemory.Allocate, hA]
      rfl
    constructor
    · simp only [PushBack, if_pos hfull, hr]
    · simp only [PushBackMove, if_pos hfull, hr]
  · intro hA
    constructor
    · simp only [Insert, RawMemory.new, RawMemory.Allocate, hA]
      rfl
    · simp only [InsertMove, RawMemory.new, RawMemory.Allocate, hA]
      rfl

/-- Witness of C17: the four operations on the full container `[10, 20]` when
the allocator fails. -/
theorem alloc_failure_leaves_container_witness :
    Reserve exNoMemory ex2 5 = { self := ex2, ret := .error .bad_alloc } ∧
    Resize exNoMemory ex2 5 = { self := ex2, ret := .error .bad_alloc } ∧
    PushBack exNoMemory ex2 30 = { self := ex2, ret := .error .bad_alloc } ∧
    Insert exNoMemory ex2 1 15 = { self := ex2, ret := .error .bad_alloc } :=
  have h := alloc_failure_leaves_container exNoMemory ex2 5 1 (30 : Int)
  have h2 := alloc_failure_leaves_container exNoMemory ex2 5 1 (15 : Int)
  ⟨(h.1 (by decide) rfl).1, (h.1 (by decide) rfl).2, (h.2.1 rfl rfl).1, (h2.2.2 rfl).1⟩

theorem RawMemory_new_cp (env : Env T) (n : Nat) (d : RawMemory T)
    (h : RawMemory.new env n = some d) : d.cp_ = n := by
  unfold RawMemory.new at h
  cases ha : RawMemory.Allocate env (n + 1) with
  | none => rw [ha] at h; cases h
  | some b =>
    rw [ha] at h
    simp only [Option.some.injEq] at h
    rw [← h]

theorem Reserve_cases (env : Env T) (v : Vector T) (n : Nat) :
    (Reserve env v n).self.sz_ = v.sz_ ∧
      v.data_.cp_ ≤ (Reserve env v n).self.data_.cp_ ∧
      ((Reserve env v n).ret = .ok () → n ≤ (Reserve env v n).self.data_.cp_) := by
  unfold Reserve
  by_cases hn : n > v.data_.cp_
  · rw [if_pos hn]
    cases hd : RawMemory.new env n with
    | none => exact ⟨rfl, Nat.le_refl _, fun h => by simp at h⟩
    | some d =>
      have hcp := RawMemory_new_cp env n d hd
      refine ⟨rfl, ?_, fun _ => ?_⟩
      · show v.data_.cp_ ≤ d.cp_
        omega
      · show n ≤ d.cp_
        omega
  · rw [if_neg hn]
    refine ⟨rfl, Nat.le_refl _, fun _ => ?_⟩
    show n ≤ v.data_.cp_
    omega

theorem Resize_cases (env : Env T) (v : Vector T) (n : Nat) (hv : v.sz_ ≤ v.data_.cp_) :
    (Resize env v n).self.sz_ ≤ (Resize env v n).self.data_.cp_ ∧
      v.data_.cp_ ≤ (Resize env v n).self.data_.cp_ := by
  obtain ⟨h1, h2, h3⟩ := Reserve_cases env v n
  unfold Resize
  cases hr : (Reserve env v n).ret with
  | error f =>
    simp only [hr]
    exact ⟨by omega, h2⟩
  | ok u =>
    have h4 := h3 hr
    simp only [hr]
    split_ifs
    · exact ⟨h4, h2⟩
    · exact ⟨h4, h2⟩
    · exact ⟨h4, h2⟩

theorem double_gt (sz cp : Nat) (h : sz = cp) : cp < (if sz = 0 then 1 else sz * 2) := by
  split_ifs <;> omega

theorem double_gt2 (sz cp : Nat) (h : sz = cp) : cp < (if sz = 0 then 1 else cp * 2) := by
  split_ifs <;> omega

theorem grow_cases (env : Env T) (v : Vector T) (m : Nat) :
    let r : Outcome T Unit :=
      if v.sz_ = v.data_.cp_ then Reserve env v m else { self := v, ret := .ok () }
    r.self.sz_ = v.sz_ ∧ v.data_.cp_ ≤ r.self.data_.cp_ ∧
      (v.sz_ ≤ v.data_.cp_ → r.self.sz_ ≤ r.self.data_.cp_) ∧
      (v.sz_ ≤ v.data_.cp_ → (v.sz_ = v.data_.cp_ → v.data_.cp_ < m) → r.ret = .ok () →
        r.self.sz_ + 1 ≤ r.self.data_.cp_) := by
  intro r
  obtain ⟨h1, h2, h3⟩ := Reserve_cases env v m
  by_cases hfull : v.sz_ = v.data_.cp_
  · have hr : r = Reserve env v m := if_pos hfull
    rw [hr]
    refine ⟨h1, h2, fun hv => by omega, fun hv hm h => ?_⟩
    have := h3 h
    have := hm hfull
    omega
  · have hr : r = { self := v, ret := .ok () } := if_neg hfull
    rw [hr]
    refine ⟨rfl, Nat.le_refl _, fun hv => hv, fun hv _ _ => ?_⟩
    show v.sz_ + 1 ≤ v.data_.cp_
    omega

theorem PushBack_cases (env : Env T) (v : Vector T) (x : T) :
    v.data_.cp_ ≤ (PushBack env v x).self.data_.cp_ ∧
      (v.sz_ ≤ v.data_.cp_ →
        (PushBack env v x).self.sz_ ≤ (PushBack env v x).self.data_.cp_) := by
  obtain ⟨h1, h2, h3, h4⟩ := grow_cases env v (if v.sz_ = 0 then 1 else v.sz_ * 2)
  unfold PushBack
  simp only
  cases hr : (if v.sz_ = v.data_.cp_ then Reserve env v (if v.sz_ = 0 then 1 else v.sz_ * 2)
      else ({ self := v, ret := .ok () } : Outcome T Unit)).ret with
  | error f => exact ⟨h2, h3⟩
  | ok u =>
    by_cases hc : env.copyOk x = true
    · simp only [hc, if_true]
      refine ⟨h2, fun hv => ?_⟩
      exact h4 hv (double_gt v.sz_ v.data_.cp_) hr
    · simp only [hc]
      exact ⟨h2, h3⟩

theorem PushBackMove_cases (env : Env T) (v : Vector T) (x : T) :
    v.data_.cp_ ≤ (PushBackMove env v x).self.data_.cp_ ∧
      (v.sz_ ≤ v.data_.cp_ →
        (PushBackMove env v x).self.sz_ ≤ (PushBackMove env v x).self.data_.cp_) := by
  obtain ⟨h1, h2, h3, h4⟩ := grow_cases env v (if v.sz_ = 0 then 1 else v.sz_ * 2)
  unfold PushBackMove
  simp only
  cases hr : (if v.sz_ = v.data_.cp_ then Reserve env v (if v.sz_ = 0 then 1 else v.sz_ * 2)
      else ({ self := v, ret := .ok () } : Outcome T Unit)).ret with
  | error f => exact ⟨h2, h3⟩
  | ok u =>
    refine ⟨h2, fun hv => ?_⟩
    exact h4 hv (double_gt v.sz_ v.data_.cp_) hr

theorem EmplaceBack_cases (env : Env T) (v : Vector T) (x : T) :
    v.data_.cp_ ≤ (EmplaceBack env v x).self.data_.cp_ ∧
      (v.sz_ ≤ v.data_.cp_ →
        (EmplaceBack env v x).self.sz_ ≤ (EmplaceBack env v x).self.data_.cp_) := by
  obtain ⟨h1, h2, h3, h4⟩ := grow_cases env v (if v.sz_ = 0 then 1 else v.data_.cp_ * 2)
  unfold EmplaceBack
  simp only
  cases hr : (if v.sz_ = v.data_.cp_ then
        Reserve env v (if v.sz_ = 0 then 1 else v.data_.cp_ * 2)
      else ({ self := v, ret := .ok () } : Outcome T Unit)).ret with
  | error f => exact ⟨h2, h3⟩
  | ok u =>
    refine ⟨h2, fun hv => ?_⟩
    exact h4 hv (double_gt2 v.sz_ v.data_.cp_) hr

theorem Insert_cases (env : Env T) (v : Vector T) (pos : Nat) (x : T) :
    (v.data_.cp_ ≤ (Insert env v pos x).self.data_.cp_ ∧
      (v.sz_ ≤ v.data_.cp_ →
        (Insert env v pos x).self.sz_ ≤ (Insert env v pos x).self.data_.cp_)) ∧
    (v.data_.cp_ ≤ (InsertMove env v pos x).self.data_.cp_ ∧
      (v.sz_ ≤ v.data_.cp_ →
        (InsertMove env v pos x).self.sz_ ≤ (InsertMove env v pos x).self.data_.cp_)) := by
  unfold Insert InsertMove
  simp only
  cases hd : RawMemory.new env
      (if v.sz_ = v.data_.cp_ then (if v.sz_ = 0 then 1 else 2 * v.sz_) else v.data_.cp_) with
  | none => exact ⟨⟨Nat.le_refl _, fun h => h⟩, ⟨Nat.le_refl _, fun h => h⟩⟩
  | some d =>
    have hcp := RawMemory_new_cp env _ d hd
    have hmove : v.data_.cp_ ≤ d.cp_ ∧ (v.sz_ ≤ v.data_.cp_ → v.sz_ + 1 ≤ d.cp_) := by
      rw [hcp]
      constructor
      · split_ifs <;> omega
      · intro hv
        split_ifs <;> omega
    refine ⟨?_, hmove⟩
    by_cases hc : env.copyOk x = true
    · simp only [hc, if_true]
      exact hmove
    · simp only [hc]
      exact ⟨Nat.le_refl _, fun h => h⟩

theorem Erase_cases (env : Env T) (v : Vector T) (pos : Nat) :
    v.data_.cp_ ≤ (Erase env v pos).self.data_.cp_ ∧
      (v.sz_ ≤ v.data_.cp_ → (Erase env v pos).self.sz_ ≤ (Erase env v pos).self.data_.cp_) ∧
      (0 < v.sz_ → (Erase env v pos).ret = .ok pos →
        (Erase env v pos).self.sz_ + 1 = v.sz_) := by
  unfold Erase
  simp only
  cases hd : RawMemory.new env v.data_.cp_ with
  | none => exact ⟨Nat.le_refl _, fun h => h, fun _ h => by simp at h⟩
  | some d =>
    have hcp := RawMemory_new_cp env _ d hd
    refine ⟨?_, fun hv => ?_, fun h _ => ?_⟩
    · show v.data_.cp_ ≤ d.cp_
      omega
    · show v.sz_ - 1 ≤ d.cp_
      omega
    · show v.sz_ - 1 + 1 = v.sz_
      omega

theorem copy_ok_shape (env : Env T) (o w : Vector T) (h : copy env o = .ok w) :
    w.sz_ = o.sz_ ∧ w.data_.cp_ = o.sz_ := by
  unfold copy at h
  cases hd : RawMemory.new env o.sz_ with
  | none => rw [hd] at h; cases h
  | some d =>
    have hcp := RawMemory_new_cp env _ d hd
    rw [hd] at h
    simp only at h
    rcases hc : uninitialized_copy_n env o.data_.buf_ 0 o.sz_ d.buf_ 0 with ⟨b, _ | _⟩
    · rw [hc] at h; cases h
    · rw [hc] at h
      simp only [Except.ok.injEq] at h
      rw [← h]
      exact ⟨rfl, hcp⟩

theorem sized_ok_shape (env : Env T) (n : Nat) (w : Vector T) (h : sized env n = .ok w) :
    w.sz_ = n ∧ w.data_.cp_ = n := by
  unfold sized at h
  cases hd : RawMemory.new env n with
  | none => rw [hd] at h; cases h
  | some d =>
    have hcp := RawMemory_new_cp env _ d hd
    rw [hd] at h
    simp only [Except.ok.injEq] at h
    rw [← h]
    exact ⟨rfl, hcp⟩

theorem assign_cases (env : Env T) (v o : Vector T) :
    v.data_.cp_ ≤ (assign env v o).self.data_.cp_ ∧
      (v.sz_ ≤ v.data_.cp_ →
        (assign env v o).self.sz_ ≤ (assign env v o).self.data_.cp_) := by
  unfold assign
  by_cases hgt : o.sz_ > v.data_.cp_
  · rw [if_pos hgt]
    cases hc : copy env o with
    | error f => exact ⟨Nat.le_refl _, fun h => h⟩
    | ok w =>
      obtain ⟨h1, h2⟩ := copy_ok_shape env o w hc
      refine ⟨?_, fun _ => ?_⟩
      · show v.data_.cp_ ≤ w.data_.cp_
        omega
      · show w.sz_ ≤ w.data_.cp_
        omega
  · rw [if_neg hgt]
    rcases ha : assign_n env o.data_.buf_ 0 (min v.sz_ o.sz_) v.data_.buf_ with ⟨b, _ | _⟩
    · exact ⟨Nat.le_refl _, fun h => h⟩
    · simp only
      by_cases h1 : o.sz_ < v.sz_
      · rw [if_pos h1]
        refine ⟨Nat.le_refl _, fun _ => ?_⟩
        show o.sz_ ≤ v.data_.cp_
        omega
      · rw [if_neg h1]
        by_cases h2 : o.sz_ > v.sz_
        · rw [if_pos h2]
          rcases hc : uninitialized_copy_n env o.data_.buf_ v.sz_ (o.sz_ - v.sz_) b v.sz_
            with ⟨b2, _ | _⟩
          · exact ⟨Nat.le_refl _, fun h => h⟩
          · refine ⟨Nat.le_refl _, fun _ => ?_⟩
            show o.sz_ ≤ v.data_.cp_
            omega
        · rw [if_neg h2]
          refine ⟨Nat.le_refl _, fun _ => ?_⟩
          show o.sz_ ≤ v.data_.cp_
          omega

theorem readsOf_append (b : Buf) (l1 l2 : List Access) :
    readsOf b (l1 ++ l2) = readsOf b l1 ++ readsOf b l2 := by
  simp [readsOf, List.filterMap_append]

theorem readsOf_move (b src dst : Buf) (first n dfirst : Nat) :
    readsOf b (move_accesses src dst first n dfirst) =
      if src = b then List.range' first n else [] := by
  induction n generalizing first dfirst with
  | zero => simp [move_accesses, readsOf]
  | succ n ih =>
    have ih2 := ih (first + 1) (dfirst + 1)
    simp only [readsOf] at ih2 ⊢
    simp only [move_accesses, List.filterMap_cons, ih2, List.range'_succ]
    by_cases h : src = b <;> simp [h]

theorem readsOf_destroy (b b2 : Buf) (first n : Nat) :
    readsOf b (destroy_accesses b2 first n) = [] := by
  induction n generalizing first with
  | zero => rfl
  | succ n ih =>
    have ih2 := ih (first + 1)
    simp only [readsOf] at ih2 ⊢
    simp only [destroy_accesses, List.filterMap_cons, ih2]

theorem destroysBeforeRelease_move (b src dst : Buf) (first n dfirst : Nat)
    (rest : List Access) :
    destroysBeforeRelease b (move_accesses src dst first n dfirst ++ rest) =
      destroysBeforeRelease b rest := by
  induction n generalizing first dfirst with
  | zero => rfl
  | succ n ih =>
    simp only [move_accesses, List.cons_append, destroysBeforeRelease]
    exact ih (first + 1) (dfirst + 1)

theorem destroysBeforeRelease_destroy (b : Buf) (first n : Nat) (rest : List Access) :
    destroysBeforeRelease b (destroy_accesses b first n ++ rest) =
      List.range' first n ++ destroysBeforeRelease b rest := by
  induction n generalizing first with
  | zero => rfl
  | succ n ih =>
    simp only [destroy_accesses, List.cons_append, destroysBeforeRelease, if_true,
      List.range'_succ]
    exact congrArg (List.cons first) (ih (first + 1))

theorem Reserve_trace_of_alloc (env : Env T) (v : Vector T) (n : Nat)
    (hn : n > v.data_.cp_) (hA : env.allocOk (n + 1) = true) :
    Reserve_trace env v n =
      move_accesses .old .fresh 0 v.data_.cp_ 0 ++ destroy_accesses .old 0 v.sz_ ++
        [.release .old] := by
  unfold Reserve_trace
  rw [if_pos hn, RawMemory.new_of_allocOk env n hA]

theorem Erase_trace_of_alloc (env : Env T) (v : Vector T) (p : Nat)
    (hp : p < v.sz_) (hA : env.allocOk (v.data_.cp_ + 1) = true) :
    Erase_trace env v p =
      move_accesses .old .fresh 0 p 0 ++ move_accesses .old .fresh (p + 1) (v.sz_ - p) p ++
        [.release .old] := by
  unfold Erase_trace
  simp only [begin, Nat.sub_zero, RawMemory.new_of_allocOk env _ hA, if_pos hp]

theorem InsertMove_trace_of_alloc (env : Env T) (v : Vector T) (p : Nat)
    (hA : ∀ n, env.allocOk n = true) :
    InsertMove_trace env v p =
      move_accesses .old .fresh 0 p 0 ++ [.write .fresh p] ++
        (if v.sz_ > p then move_accesses .old .fresh p (v.sz_ - p) (p + 1) else []) ++
        [.release .old] := by
  unfold InsertMove_trace
  simp only [begin, Nat.sub_zero, RawMemory.new_of_allocOk env _ (hA _)]

theorem Reserve_reads (env : Env T) (v : Vector T) (n : Nat)
    (hn : n > v.data_.cp_) (hA : env.allocOk (n + 1) = true) :
    readsOf .old (Reserve_trace env v n) = List.range' 0 v.data_.cp_ := by
  rw [Reserve_trace_of_alloc env v n hn hA, readsOf_append, readsOf_append, readsOf_move,
    readsOf_destroy]
  simp [readsOf]

theorem Erase_reads (env : Env T) (v : Vector T) (p : Nat)
    (hp : p < v.sz_) (hA : env.allocOk (v.data_.cp_ + 1) = true) :
    readsOf .old (Erase_trace env v p) = List.range' 0 p ++ List.range' (p + 1) (v.sz_ - p) := by
  rw [Erase_trace_of_alloc env v p hp hA, readsOf_append, readsOf_append, readsOf_move,
    readsOf_move]
  simp [readsOf]

theorem Erase_reads_size (env : Env T) (v : Vector T) (p : Nat)
    (hp : p < v.sz_) (hA : env.allocOk (v.data_.cp_ + 1) = true) :
    v.sz_ ∈ readsOf .old (Erase_trace env v p) := by
  rw [Erase_reads env v p hp hA, List.mem_append]
  right
  rw [List.mem_range'_1]
  omega

theorem InsertMove_reads (env : Env T) (v : Vector T) (p : Nat) (hp : p ≤ v.sz_)
    (hA : ∀ n, env.allocOk n = true) :
    readsOf .old (InsertMove_trace env v p) = List.range' 0 v.sz_ := by
  rw [InsertMove_trace_of_alloc env v p hA]
  simp only [readsOf_append, readsOf_move, if_true]
  have h1 : readsOf Buf.old [Access.write Buf.fresh p] = [] := rfl
  have h2 : readsOf Buf.old [Access.release Buf.old] = [] := rfl
  rw [h1, h2]
  by_cases hlt : v.sz_ > p
  · rw [if_pos hlt, readsOf_move, if_pos rfl, List.append_nil, List.append_nil]
    have h3 := List.range'_append_1 0 p (v.sz_ - p)
    rw [Nat.zero_add, Nat.sub_add_cancel hp] at h3
    exact h3
  · rw [if_neg hlt]
    have : p = v.sz_ := by omega
    subst this
    simp [readsOf]

theorem ex3_central : ex3.Central := by
  refine ⟨⟨by decide, Or.inl rfl⟩, fun i => ?_⟩
  rcases i with _ | _ | _ | _ | _ | i
  · exact ⟨fun _ => rfl, fun h => absurd h (by decide)⟩
  · exact ⟨fun _ => rfl, fun h => absurd h (by decide)⟩
  · exact ⟨fun _ => rfl, fun h => absurd h (by decide)⟩
  · exact ⟨fun h => absurd h (by decide), fun _ => rfl⟩
  · exact ⟨fun h => absurd h (by decide), fun _ => rfl⟩
  · refine ⟨fun h => ?_, fun _ => rfl⟩
    have h2 : i + 1 + 1 + 1 + 1 + 1 < 3 := h
    omega

theorem ex2_central : ex2.Central := by
  refine ⟨⟨by decide, Or.inl rfl⟩, fun i => ?_⟩
  rcases i with _ | _ | _ | i
  · exact ⟨fun _ => rfl, fun h => absurd h (by decide)⟩
  · exact ⟨fun _ => rfl, fun h => absurd h (by decide)⟩
  · exact ⟨fun h => absurd h (by decide), fun _ => rfl⟩
  · refine ⟨fun h => ?_, fun _ => rfl⟩
    have h2 : i + 1 + 1 + 1 < 2 := h
    omega

theorem InsertMove_destroys (env : Env T) (v : Vector T) (pos : Nat) :
    destroysBeforeRelease .old (InsertMove_trace env v pos) = [] := by
  unfold InsertMove_trace
  simp only
  cases RawMemory.new env
      (if v.sz_ = v.data_.cp_ then (if v.sz_ = 0 then 1 else 2 * v.sz_) else v.data_.cp_) with
  | none => rfl
  | some d =>
    simp only [List.append_assoc, destroysBeforeRelease_move, List.singleton_append,
      destroysBeforeRelease]
    split_ifs
    · exact (destroysBeforeRelease_move _ _ _ _ _ _ _).trans rfl
    · rfl

theorem Insert_destroys (env : Env T) (v : Vector T) (pos : Nat) (x : T) :
    destroysBeforeRelease .old (Insert_trace env v pos x) = [] := by
  unfold Insert_trace
  simp only
  cases RawMemory.new env
      (if v.sz_ = v.data_.cp_ then (if v.sz_ = 0 then 1 else 2 * v.sz_) else v.data_.cp_) with
  | none => rfl
  | some d =>
    simp only
    by_cases hc : env.copyOk x = true
    · rw [if_pos hc]
      simp only [List.append_assoc, destroysBeforeRelease_move, List.singleton_append,
        destroysBeforeRelease]
      split_ifs
      · exact (destroysBeforeRelease_move _ _ _ _ _ _ _).trans rfl
      · rfl
    · rw [if_neg hc, destroysBeforeRelease_move]
      rfl

theorem Erase_destroys (env : Env T) (v : Vector T) (pos : Nat) :
    destroysBeforeRelease .old (Erase_trace env v pos) = [] := by
  unfold Erase_trace
  simp only
  cases RawMemory.new env v.data_.cp_ with
  | none => rfl
  | some d =>
    simp only [List.append_assoc, destroysBeforeRelease_move]
    split_ifs
    · exact (destroysBeforeRelease_move _ _ _ _ _ _ _).trans rfl
    · rfl

theorem Reserve_destroys (env : Env T) (v : Vector T) (n : Nat)
    (hn : n > v.data_.cp_) (hA : env.allocOk (n + 1) = true) :
    destroysBeforeRelease .old (Reserve_trace env v n) = List.range' 0 v.sz_ := by
  rw [Reserve_trace_of_alloc env v n hn hA, List.append_assoc, destroysBeforeRelease_move,
    destroysBeforeRelease_destroy]
  simp [destroysBeforeRelease]

/-- C18, on which the code departs from the claim: the relocating operations
do read raw slots as `T`.  On the container `[10, 15, 20]` of capacity 4, which
satisfies the central invariant, `Reserve(5)` move-constructs from the slots
0, 1, 2, 3 of the old buffer and `Erase(0)` from the slots 1, 2, 3, and slot 3
is raw.  In general `Reserve(n)` with `n > capacity` move-constructs from the
`capacity` slots `[0, capacity)`, not from the `size` live ones, and `Erase(p)`
from the slots `[0, p)` and `[p + 1, size]`, slot `size` included.  `Insert`
reads exactly the slots `[0, size)`. -/
theorem raw_slot_reads :
    (ex3.Central ∧ ex3.Size = 3 ∧ ex3.Capacity = 4 ∧ ex3.index 3 = none ∧
      readsOf .old (Reserve_trace exEnv ex3 5) = [0, 1, 2, 3] ∧
      readsOf .old (Erase_trace exEnv ex3 0) = [1, 2, 3]) ∧
    (∀ (α : Type) (env : Env α) (v : Vector α) (n : Nat),
      n > v.Capacity → env.allocOk (n + 1) = true →
        readsOf .old (Reserve_trace env v n) = List.range' 0 v.Capacity) ∧
    (∀ (α : Type) (env : Env α) (v : Vector α) (p : Nat),
      p < v.Size → env.allocOk (v.Capacity + 1) = true →
        readsOf .old (Erase_trace env v p) =
            List.range' 0 p ++ List.range' (p + 1) (v.Size - p) ∧
          v.Size ∈ readsOf .old (Erase_trace env v p)) ∧
    (∀ (α : Type) (env : Env α) (v : Vector α) (p : Nat),
      p ≤ v.Size → (∀ n, env.allocOk n = true) →
        readsOf .old (InsertMove_trace env v p) = List.range' 0 v.Size) :=
  ⟨⟨ex3_central, rfl, rfl, rfl, rfl, rfl⟩,
    fun _ env v n hn hA => Reserve_reads env v n hn hA,
    fun _ env v p hp hA => ⟨Erase_reads env v p hp hA, Erase_reads_size env v p hp hA⟩,
    fun _ env v p hp hA => InsertMove_reads env v p hp hA⟩

/-- C19, on which the code departs from the claim: the headroom slot is used.
On the full container `[10, 20]` (size 2, capacity 2) `Erase(0)` move-constructs
from the slots 1 and 2 of the old buffer, and slot 2 is the slot at index
`capacity`.  In general `Erase(p)` on a full container reads the slot at
index `capacity`. -/
theorem headroom_slot_read :
    (ex2.Central ∧ ex2.Size = 2 ∧ ex2.Capacity = 2 ∧
      readsOf .old (Erase_trace exEnv ex2 0) = [1, 2] ∧
      ex2.Capacity ∈ readsOf .old (Erase_trace exEnv ex2 0)) ∧
    (∀ (α : Type) (env : Env α) (v : Vector α) (p : Nat),
      p < v.Size → v.Size = v.Capacity → env.allocOk (v.Capacity + 1) = true →
        v.Capacity ∈ readsOf .old (Erase_trace env v p)) :=
  ⟨⟨ex2_central, rfl, rfl, rfl, by decide⟩,
    fun _ env v p hp hfull hA => by
      have h := Erase_reads_size env v p hp hA
      have h2 : v.sz_ = v.Capacity := hfull
      rw [h2] at h
      exact h⟩

/-- C20, on which the code departs from the claim: `Insert` and `Erase` destroy
none of the elements of the old buffer before it is released, whereas
`Reserve` destroys each of the `size` elements once.  On the container
`[10, 20]`: no destruction in `Insert(1, 15)` nor in `Erase(0)`, the slots 0
and 1 destroyed in `Reserve(5)`. -/
theorem old_elements_not_destroyed :
    (destroysBeforeRelease .old (Insert_trace exEnv ex2 1 15) = [] ∧
      destroysBeforeRelease .old (InsertMove_trace exEnv ex2 1) = [] ∧
      destroysBeforeRelease .old (Erase_trace exEnv ex2 0) = [] ∧
      destroysBeforeRelease .old (Reserve_trace exEnv ex2 5) = [0, 1]) ∧
    (∀ (α : Type) (env : Env α) (v : Vector α) (pos : Nat) (x : α),
      destroysBeforeRelease .old (Insert_trace env v pos x) = [] ∧
      destroysBeforeRelease .old (InsertMove_trace env v pos) = [] ∧
      destroysBeforeRelease .old (Erase_trace env v pos) = []) ∧
    (∀ (α : Type) (env : Env α) (v : Vector α) (n : Nat),
      n > v.Capacity → env.allocOk (n + 1) = true →
        destroysBeforeRelease .old (Reserve_trace env v n) = List.range' 0 v.Size) :=
  ⟨⟨rfl, rfl, rfl, rfl⟩,
    fun _ env v pos x =>
      ⟨Insert_destroys env v pos x, InsertMove_destroys env v pos, Erase_destroys env v pos⟩,
    fun _ env v n hn hA => Reserve_destroys env v n hn hA⟩

theorem toInt_of_lt (n : Nat) (h : n < 2 ^ 31) : LP64.toInt n = Int.ofNat n := by
  have h1 : n % 2 ^ 32 = n := Nat.mod_eq_of_lt (by omega)
  unfold LP64.toInt
  rw [h1, if_pos h]

theorem LP64_new_in_range (env : Env T) (n : Nat) (h : n + 1 < 2 ^ 31) :
    LP64.RawMemory.new env n =
      match RawMemory.new env n with
      | none => .bad_alloc
      | some m => .memory m := by
  have h1 := toInt_of_lt (n + 1) h
  have h2 := toInt_of_lt n (by omega)
  unfold LP64.RawMemory.new RawMemory.new
  rw [h1, h2]
  have h3 : ¬ Int.ofNat (n + 1) < 0 := Int.not_lt.mpr (Int.ofNat_nonneg _)
  have h4 : ¬ Int.ofNat n < 0 := Int.not_lt.mpr (Int.ofNat_nonneg _)
  have h5 : (Int.ofNat (n + 1)).toNat = n + 1 := rfl
  have h6 : (Int.ofNat n).toNat = n := rfl
  rw [if_neg h3, h5, h6]
  simp only [if_neg h4]
  cases RawMemory.Allocate env (n + 1) <;> rfl

theorem LP64_Reserve_in_range (env : Env T) (v : Vector T) (n : Nat) (h : n + 1 < 2 ^ 31) :
    LP64.Reserve env v n = some (Reserve env v n) := by
  unfold LP64.Reserve Reserve
  rw [LP64_new_in_range env n h]
  by_cases hn : n > v.data_.cp_
  · rw [if_pos hn, if_pos hn]
    cases RawMemory.new env n <;> rfl
  · rw [if_neg hn, if_neg hn]

theorem LP64_Resize_in_range (env : Env T) (v : Vector T) (n : Nat) (h : n + 1 < 2 ^ 31) :
    LP64.Resize env v n = some (Resize env v n) := by
  have h2 := toInt_of_lt n (by omega)
  have h4 : ¬ Int.ofNat n < 0 := Int.not_lt.mpr (Int.ofNat_nonneg _)
  have h6 : (Int.ofNat n).toNat = n := rfl
  unfold LP64.Resize Resize
  rw [LP64_Reserve_in_range env v n h]
  simp only [h2, if_neg h4, h6]
  cases (Reserve env v n).ret with
  | error f => rfl
  | ok u =>
    simp only
    split_ifs <;> rfl

theorem LP64_sized_in_range (env : Env T) (n : Nat) (h : n + 1 < 2 ^ 31) :
    LP64.sized env n = some (sized env n) := by
  have h2 := toInt_of_lt n (by omega)
  unfold LP64.sized sized
  rw [LP64_new_in_range env n h]
  cases RawMemory.new env n with
  | none => rfl
  | some m =>
    have h6 : (Int.ofNat n).toNat = n := rfl
    simp only [h2, h6]

theorem ex10_holds : ex10.Holds [1, 2, 3, 4, 5, 6, 7, 8, 9, 10] 10 :=
  ⟨⟨by decide, Or.inl rfl⟩, rfl, rfl, rfl⟩

theorem ex10_Reserve :
    LP64.Reserve exEnv ex10 (2 ^ 32 + 5) =
      some { self := { data_ := { buf_ := [some 1, some 2, some 3, some 4, some 5, some 6],
                                  cp_ := 5 },
                       sz_ := 10 },
             ret := .ok () } := rfl

/-- C6, on which the code departs from the claim: `Reserve(n)` stores the
`size_t` it receives in `int`s.  On the container `[10, 20]` of capacity 2,
`Reserve(2 ^ 32 + 5)` passes the test `n > cp_`, asks `Allocate` for
`(int)(n + 1) = 6` slots and sets `cp_ = (int)n = 5`: the capacity is 5, not
`n`.  For every `n` with `n + 1 < 2 ^ 31` the call does what the claim says:
size and live sequence kept, capacity `max(c, n)`, the container unchanged
when `n ≤ c`. -/
theorem Reserve_narrows_request :
    (ex2.Holds [10, 20] 2 ∧
      LP64.Reserve exEnv ex2 (2 ^ 32 + 5) =
        some { self := { data_ := { buf_ := [some 10, some 20, none, none, none, none],
                                    cp_ := 5 },
                         sz_ := 2 },
               ret := .ok () } ∧
      (∀ r, LP64.Reserve exEnv ex2 (2 ^ 32 + 5) = some r →
        r.self.Capacity = 5 ∧ r.self.Capacity ≠ max 2 (2 ^ 32 + 5))) ∧
    (∀ (α : Type) (env : Env α) (v : Vector α) (s : List α) (c n : Nat),
      n + 1 < 2 ^ 31 → v.Holds s c → (∀ m, env.allocOk m = true) →
        ∃ r, LP64.Reserve env v n = some r ∧ r.ret = .ok () ∧ r.self.Size = s.length ∧
          r.self.elems = s.map some ∧ r.self.Capacity = max c n ∧ (n ≤ c → r.self = v)) := by
  refine ⟨⟨ex2_holds, rfl, ?_⟩, ?_⟩
  · intro r hr
    have h : LP64.Reserve exEnv ex2 (2 ^ 32 + 5) =
        some { self := { data_ := { buf_ := [some 10, some 20, none, none, none, none],
                                    cp_ := 5 },
                         sz_ := 2 },
               ret := .ok () } := rfl
    rw [h] at hr
    simp only [Option.some.injEq] at hr
    subst hr
    exact ⟨rfl, by decide⟩
  · intro α env v s c n hn hv hA
    obtain ⟨hret, hh⟩ := Reserve_holds env v s c n hv hA
    refine ⟨_, LP64_Reserve_in_range env v n hn, hret, hh.2.2.1, hh.2.2.2, hh.2.1, ?_⟩
    intro hle
    rw [Reserve_of_le env v n (by rw [hv.2.1]; exact hle)]

/-- C7, on which the code departs from the claim: `Resize(n)` stores the
`size_t` it receives in `int`s.  On the container `[10, 20]` of capacity 2,
`Resize(2 ^ 32 + 5)` gets from `Reserve` a buffer of 6 slots with `cp_ = 5`,
value-constructs `n - sz_ = 2 ^ 32 + 3` elements from slot 2 on, past the end
of that buffer, and sets `sz_ = (int)n = 5`: the size is 5, not `n`, and the
capacity 5, not `max(c, n)`.  For every `n` with `n + 1 < 2 ^ 31` the call
does what the claim says. -/
theorem Resize_narrows_request :
    (ex2.Holds [10, 20] 2 ∧
      LP64.Resize exEnv ex2 (2 ^ 32 + 5) =
        some { self := { data_ := { buf_ := uninitialized_value_construct_n exEnv
                                              [some 10, some 20, none, none, none, none] 2
                                              (2 ^ 32 + 3),
                                    cp_ := 5 },
                         sz_ := 5 },
               ret := .ok () } ∧
      (∀ r, LP64.Resize exEnv ex2 (2 ^ 32 + 5) = some r →
        r.self.Size = 5 ∧ r.self.Capacity = 5 ∧ r.self.data_.buf_.length = 6 ∧
          r.self.Size ≠ 2 ^ 32 + 5 ∧ r.self.Capacity ≠ max 2 (2 ^ 32 + 5))) ∧
    (∀ (α : Type) (env : Env α) (v : Vector α) (s : List α) (c n : Nat),
      n + 1 < 2 ^ 31 → v.Holds s c → (∀ m, env.allocOk m = true) →
        ∃ r, LP64.Resize env v n = some r ∧ r.ret = .ok () ∧ r.self.Size = n ∧
          r.self.elems =
            (s.take (min n s.length) ++ List.replicate (n - s.length) env.dflt).map some ∧
          r.self.Capacity = max c n) ∧
    (∀ (α : Type) (env : Env α) (v : Vector α) (s : List α) (c : Nat),
      s.length + 1 < 2 ^ 31 → v.Holds s c →
        ∃ r, LP64.Resize env v s.length = some r ∧ r.self = v) := by
  have hev : LP64.Resize exEnv ex2 (2 ^ 32 + 5) =
      some { self := { data_ := { buf_ := uninitialized_value_construct_n exEnv
                                            [some 10, some 20, none, none, none, none] 2
                                            (2 ^ 32 + 3),
                                  cp_ := 5 },
                       sz_ := 5 },
             ret := .ok () } := rfl
  refine ⟨⟨ex2_holds, hev, ?_⟩, ?_, ?_⟩
  · intro r hr
    rw [hev] at hr
    simp only [Option.some.injEq] at hr
    subst hr
    refine ⟨rfl, rfl, ?_, by decide, by decide⟩
    simp only [length_uninitialized_value_construct_n]
    rfl
  · intro α env v s c n hn hv hA
    obtain ⟨hret, hh⟩ := Resize_holds env v s c n hv hA
    refine ⟨_, LP64_Resize_in_range env v n hn, hret, ?_, hh.2.2.2, hh.2.1⟩
    show (Resize env v n).self.sz_ = n
    rw [hh.2.2.1]
    simp only [List.length_append, List.length_take, List.length_replicate]
    omega
  · intro α env v s c hn hv
    exact ⟨_, LP64_Resize_in_range env v s.length hn, Resize_size env v c s hv⟩

/-- C13, on which the code departs from the claim: the constructor `Vector(n)`
stores the `size_t` it receives in `int`s.  `Vector(2 ^ 32 + 5)` asks
`Allocate` for `(int)(n + 1) = 6` slots, sets `cp_ = 5`, value-constructs `n`
elements from slot 0 on, past the end of that buffer, and sets
`sz_ = (int)n = 5`: the size is 5, not `n`, and the capacity 5 is below `n`.
For every `n` with `n + 1 < 2 ^ 31` whose allocation succeeds the constructor
does what the claim says. -/
theorem sized_narrows_request :
    (LP64.sized exEnv (2 ^ 32 + 5) =
        some (.ok { data_ := { buf_ := uninitialized_value_construct_n exEnv
                                         [none, none, none, none, none, none] 0 (2 ^ 32 + 5),
                               cp_ := 5 },
                    sz_ := 5 }) ∧
      (∀ w, LP64.sized exEnv (2 ^ 32 + 5) = some (.ok w) →
        w.Size = 5 ∧ w.Capacity = 5 ∧ w.data_.buf_.length = 6 ∧ w.Size ≠ 2 ^ 32 + 5 ∧
          ¬ (2 ^ 32 + 5 ≤ w.Capacity))) ∧
    (∀ (α : Type) (env : Env α) (n : Nat),
      n + 1 < 2 ^ 31 → env.allocOk (n + 1) = true →
        ∃ w, LP64.sized env n = some (.ok w) ∧ w.Size = n ∧ n ≤ w.Capacity ∧
          w.elems = List.replicate n (some env.dflt) ∧
          ∀ i, i < n → w.index i = some env.dflt) := by
  have hev : LP64.sized exEnv (2 ^ 32 + 5) =
      some (.ok { data_ := { buf_ := uninitialized_value_construct_n exEnv
                                       [none, none, none, none, none, none] 0 (2 ^ 32 + 5),
                             cp_ := 5 },
                  sz_ := 5 }) := rfl
  refine ⟨⟨hev, ?_⟩, ?_⟩
  · intro w hw
    rw [hev] at hw
    simp only [Option.some.injEq, Except.ok.injEq] at hw
    subst hw
    refine ⟨rfl, rfl, ?_, by decide, by decide⟩
    simp only [length_uninitialized_value_construct_n]
    rfl
  · intro α env n hn hA
    obtain ⟨w, hw, hh⟩ := sized_holds env n hA
    refine ⟨w, by rw [LP64_sized_in_range env n hn, hw], ?_, ?_, ?_, ?_⟩
    · show w.sz_ = n
      rw [hh.2.2.1]; simp
    · show n ≤ w.data_.cp_
      rw [hh.2.1]
    · rw [hh.2.2.2]; simp
    · intro i hi
      rw [hh.index i (by simpa using hi), List.getElem?_replicate, if_pos hi]

/-- C15, on which the code departs from the claim: `Reserve` can leave
`size > capacity`.  On the full container of ten integers (size 10, capacity
10), `Reserve(2 ^ 32 + 5)` passes the test `n > cp_`, acquires a buffer of 6
slots, relocates the 10 slots of the old buffer into it and sets
`cp_ = (int)n = 5`: afterwards the size is 10 and the capacity 5.  The
invariant is kept by `Reserve(n)`, `Resize(n)` and `Vector(n)` for every `n`
with `n + 1 < 2 ^ 31`, and by the constructors and operations whose sizes come
from the container itself, whether they return or throw. -/
theorem size_exceeds_capacity :
    (ex10.Holds [1, 2, 3, 4, 5, 6, 7, 8, 9, 10] 10 ∧ ex10.Size ≤ ex10.Capacity ∧
      LP64.Reserve exEnv ex10 (2 ^ 32 + 5) =
        some { self := { data_ := { buf_ := [some 1, some 2, some 3, some 4, some 5, some 6],
                                    cp_ := 5 },
                         sz_ := 10 },
               ret := .ok () } ∧
      (∀ r, LP64.Reserve exEnv ex10 (2 ^ 32 + 5) = some r →
        r.self.Size = 10 ∧ r.self.Capacity = 5 ∧ ¬ (r.self.Size ≤ r.self.Capacity))) ∧
    (∀ (α : Type) (env : Env α) (v : Vector α) (n : Nat),
      n + 1 < 2 ^ 31 → v.Size ≤ v.Capacity →
        (∃ r, LP64.Reserve env v n = some r ∧ r.self.Size ≤ r.self.Capacity) ∧
        (∃ r, LP64.Resize env v n = some r ∧ r.self.Size ≤ r.self.Capacity) ∧
        (∃ r, LP64.sized env n = some r ∧ ∀ w, r = .ok w → w.Size ≤ w.Capacity)) ∧
    (∀ (α : Type) (env : Env α) (v o : Vector α) (pos : Nat) (x : α),
      v.Size ≤ v.Capacity → o.Size ≤ o.Capacity →
        (({} : Vector α).Size ≤ ({} : Vector α).Capacity ∧
          (∀ w, copy env o = .ok w → w.Size ≤ w.Capacity) ∧
          ((move o).1.Size ≤ (move o).1.Capacity ∧ (move o).2.Size ≤ (move o).2.Capacity)) ∧
        ((assign env v o).self.Size ≤ (assign env v o).self.Capacity ∧
          ((moveAssign v o).1.Size ≤ (moveAssign v o).1.Capacity ∧
            (moveAssign v o).2.Size ≤ (moveAssign v o).2.Capacity) ∧
          ((Swap v o).1.Size ≤ (Swap v o).1.Capacity ∧
            (Swap v o).2.Size ≤ (Swap v o).2.Capacity)) ∧
        ((PushBack env v x).self.Size ≤ (PushBack env v x).self.Capacity ∧
          (PushBackMove env v x).self.Size ≤ (PushBackMove env v x).self.Capacity ∧
          (EmplaceBack env v x).self.Size ≤ (EmplaceBack env v x).self.Capacity) ∧
        (0 < v.Size →
          (PopBack v).Size ≤ (PopBack v).Capacity ∧ (PopBack v).Size + 1 = v.Size) ∧
        (pos ≤ v.Size →
          (Insert env v pos x).self.Size ≤ (Insert env v pos x).self.Capacity ∧
          (InsertMove env v pos x).self.Size ≤ (InsertMove env v pos x).self.Capacity ∧
          (Emplace env v pos x).self.Size ≤ (Emplace env v pos x).self.Capacity) ∧
        (pos < v.Size →
          (Erase env v pos).self.Size ≤ (Erase env v pos).self.Capacity ∧
          ((Erase env v pos).ret = .ok pos → (Erase env v pos).self.Size + 1 = v.Size))) := by
  refine ⟨⟨ex10_holds, by decide, rfl, ?_⟩, ?_, ?_⟩
  · intro r hr
    rw [ex10_Reserve] at hr
    simp only [Option.some.injEq] at hr
    subst hr
    exact ⟨rfl, rfl, by decide⟩
  · intro α env v n hn hv
    have hv2 : v.sz_ ≤ v.data_.cp_ := hv
    refine ⟨⟨_, LP64_Reserve_in_range env v n hn, ?_⟩,
      ⟨_, LP64_Resize_in_range env v n hn, (Resize_cases env v n hv2).1⟩,
      ⟨_, LP64_sized_in_range env n hn, ?_⟩⟩
    · obtain ⟨h1, h2, _⟩ := Reserve_cases env v n
      show (Reserve env v n).self.sz_ ≤ (Reserve env v n).self.data_.cp_
      omega
    · intro w hw
      obtain ⟨h1, h2⟩ := sized_ok_shape env n w hw
      show w.sz_ ≤ w.data_.cp_
      omega
  · intro α env v o pos x hv ho
    have hv2 : v.sz_ ≤ v.data_.cp_ := hv
    have ho2 : o.sz_ ≤ o.data_.cp_ := ho
    refine ⟨⟨Nat.le_refl 0, ?_, ho, Nat.le_refl 0⟩, ⟨?_, ⟨ho, hv⟩, ⟨ho, hv⟩⟩,
      ⟨?_, ?_, ?_⟩, ?_, ?_, ?_⟩
    · intro w hw
      obtain ⟨h1, h2⟩ := copy_ok_shape env o w hw
      show w.sz_ ≤ w.data_.cp_
      omega
    · exact (assign_cases env v o).2 hv2
    · exact (PushBack_cases env v x).2 hv2
    · exact (PushBackMove_cases env v x).2 hv2
    · exact (EmplaceBack_cases env v x).2 hv2
    · intro hpos
      have hpos2 : 0 < v.sz_ := hpos
      constructor
      · show v.sz_ - 1 ≤ v.data_.cp_
        omega
      · show v.sz_ - 1 + 1 = v.sz_
        omega
    · intro _
      exact ⟨(Insert_cases env v pos x).1.2 hv2, (Insert_cases env v pos x).2.2 hv2,
        (Insert_cases env v pos x).2.2 hv2⟩
    · intro hpos
      have hpos2 : 0 < v.sz_ := Nat.lt_of_le_of_lt (Nat.zero_le pos) hpos
      exact ⟨(Erase_cases env v pos).2.1 hv2, (Erase_cases env v pos).2.2 hpos2⟩

/-- C16, on which the code departs from the claim: `Reserve` can decrease the
capacity.  On the full container of ten integers (capacity 10),
`Reserve(2 ^ 32 + 5)` passes the test `n > cp_` and sets `cp_ = (int)n = 5`:
the capacity goes from 10 to 5.  The capacity does not decrease in
`Reserve(n)` and `Resize(n)` for every `n` with `n + 1 < 2 ^ 31`, nor in the
operations whose sizes come from the container itself (copy assignment,
`PushBack`, `EmplaceBack`, `PopBack`, `Insert`, `Emplace`, `Erase`), whether
they return or throw. -/
theorem capacity_decreases :
    (ex10.Holds [1, 2, 3, 4, 5, 6, 7, 8, 9, 10] 10 ∧ ex10.Capacity = 10 ∧
      LP64.Reserve exEnv ex10 (2 ^ 32 + 5) =
        some { self := { data_ := { buf_ := [some 1, some 2, some 3, some 4, some 5, some 6],
                                    cp_ := 5 },
                         sz_ := 10 },
               ret := .ok () } ∧
      (∀ r, LP64.Reserve exEnv ex10 (2 ^ 32 + 5) = some r →
        r.self.Capacity = 5 ∧ ¬ (ex10.Capacity ≤ r.self.Capacity))) ∧
    (∀ (α : Type) (env : Env α) (v : Vector α) (n : Nat),
      n + 1 < 2 ^ 31 →
        (∃ r, LP64.Reserve env v n = some r ∧ v.Capacity ≤ r.self.Capacity) ∧
        (∃ r, LP64.Resize env v n = some r ∧ v.Capacity ≤ r.self.Capacity)) ∧
    (∀ (α : Type) (env : Env α) (v o : Vector α) (pos : Nat) (x : α),
      v.Capacity ≤ (assign env v o).self.Capacity ∧
      v.Capacity ≤ (PushBack env v x).self.Capacity ∧
      v.Capacity ≤ (PushBackMove env v x).self.Capacity ∧
      v.Capacity ≤ (EmplaceBack env v x).self.Capacity ∧
      v.Capacity ≤ (PopBack v).Capacity ∧
      v.Capacity ≤ (Insert env v pos x).self.Capacity ∧
      v.Capacity ≤ (InsertMove env v pos x).self.Capacity ∧
      v.Capacity ≤ (Emplace env v pos x).self.Capacity ∧
      v.Capacity ≤ (Erase env v pos).self.Capacity) := by
  refine ⟨⟨ex10_holds, rfl, rfl, ?_⟩, ?_, ?_⟩
  · intro r hr
    rw [ex10_Reserve] at hr
    simp only [Option.some.injEq] at hr
    subst hr
    exact ⟨rfl, by decide⟩
  · intro α env v n hn
    refine ⟨⟨_, LP64_Reserve_in_range env v n hn, (Reserve_cases env v n).2.1⟩,
      ⟨_, LP64_Resize_in_range env v n hn, ?_⟩⟩
    obtain ⟨h1, h2, h3⟩ := Reserve_cases env v n
    show v.data_.cp_ ≤ (Resize env v n).self.data_.cp_
    unfold Resize
    cases hr : (Reserve env v n).ret with
    | error f => simp only [hr]; exact h2
    | ok u =>
      simp only [hr]
      split_ifs
      · exact h2
      · exact h2
      · exact h2
  · intro α env v o pos x
    exact ⟨(assign_cases env v o).1, (PushBack_cases env v x).1,
      (PushBackMove_cases env v x).1, (EmplaceBack_cases env v x).1, Nat.le_refl _,
      (Insert_cases env v pos x).1.1, (Insert_cases env v pos x).2.1,
      (Insert_cases env v pos x).2.1, (Erase_cases env v pos).1⟩

end Vector

end Lemmas

end MyVector
